import Mathlib

/-!
A shallow embedding of `vector.c`.

The type-erased dynamic array of `src/vector.c` is embedded at byte level.

* `size_t` values are natural numbers below `SIZE_MOD`; every `size_t`
  multiplication, increment, decrement and subtraction of the source wraps
  modulo `SIZE_MOD` (`mulw`, `incw`, `decw`, `subw`).
* The heap block owned by a vector is the list of its bytes; `data = none` is
  the null pointer.  A pointer into the block is the byte offset from `data`.
* `malloc` is an oracle: it may fail, and a block it returns has exactly the
  requested length and arbitrary contents.  `free` has no observable effect.
* `memcpy` and `memmove` are defined only when the ranges they touch lie
  inside the blocks involved.  Every operation returns an `Option`: `none`
  stands for undefined behaviour (an access outside a block or through a
  null pointer), `some (status, vector)` for a normal return.
* Assertions are compiled out (`NDEBUG`): only the runtime guards remain.  The
  vector pointer argument itself is never null.  The `memmove` / `memcpy`
  branches of the source are the ones embedded (`__STDC_LIB_EXT1__` is not
  defined).
* `vector.h` is not part of the sources at hand, so the macros it defines are
  the fields of `Config`.
-/

namespace CVector

/-- One byte of memory. -/
abbrev Byte := Fin 256

/-- Number of values of `size_t` (a 64-bit `size_t`). -/
def SIZE_MOD : Nat := 2 ^ 64

/-- Wrapping `size_t` multiplication. -/
def mulw (a b : Nat) : Nat := (a * b) % SIZE_MOD

/-- Wrapping `size_t` increment (`++x`). -/
def incw (a : Nat) : Nat := (a + 1) % SIZE_MOD

/-- Wrapping `size_t` decrement (`--x`). -/
def decw (a : Nat) : Nat := (a + SIZE_MOD - 1) % SIZE_MOD

/-- Wrapping `size_t` subtraction of two `size_t` values. -/
def subw (a b : Nat) : Nat := (a + SIZE_MOD - b % SIZE_MOD) % SIZE_MOD

/-- Modelled from the spec: the status `ERROR` of the absent `vector.h`; `vector_resize`
compares a status with the literal `-1`. -/
def VECTOR_ERROR : Int := -1

/-- Modelled from the spec: the status `SUCCESS` of the absent `vector.h`. -/
def VECTOR_SUCCESS : Int := 0

/-- Modelled from the spec: the macro `MAX` of the absent `vector.h`, the larger of two sizes. -/
def MAX (a b : Nat) : Nat := if a > b then a else b

/-- The compile-time configuration of `vector.h`, which is not among the sources.
`capacity_times_SHRINK_THRESHOLD c` is the `size_t` value of the source expression
`capacity * VECTOR_SHRINK_THRESHOLD` at `capacity = c`; `VECTOR_NO_SHRINK` tells whether
that macro is defined. -/
structure Config where
  VECTOR_MINIMUM_CAPACITY : Nat
  VECTOR_GROWTH_FACTOR : Nat
  capacity_times_SHRINK_THRESHOLD : Nat → Nat
  VECTOR_NO_SHRINK : Bool

/-- Modelled from the spec: the constants the spec gives as examples, a growth factor
of 2 and a shrink threshold of 1/4, with a minimum capacity of 2 (the spec only calls it
a small constant) and shrinking enabled.  The witnesses and counterexamples are stated
at this configuration; the general theorems hold for every configuration that meets
their hypotheses. -/
def specConfig : Config where
  VECTOR_MINIMUM_CAPACITY := 2
  VECTOR_GROWTH_FACTOR := 2
  capacity_times_SHRINK_THRESHOLD := fun c => c / 4
  VECTOR_NO_SHRINK := false

/-- The configuration `specConfig` compiled with `VECTOR_NO_SHRINK` defined. -/
def noShrinkConfig : Config :=
  { specConfig with VECTOR_NO_SHRINK := true }

/-- Modelled from the spec: the configuration `specConfig` with the shrink threshold 1/4
of the absent `vector.h` written as the parenthesised integer constant expression
`(1 / 4)`.  C divides the two integers first, so `capacity * VECTOR_SHRINK_THRESHOLD` is
`capacity * 0`. -/
def integerThresholdConfig : Config :=
  { specConfig with capacity_times_SHRINK_THRESHOLD := fun c => c * (1 / 4) }

/-- The `Vector` struct: the four fields the source reads and writes. -/
structure Vector where
  size : Nat
  capacity : Nat
  element_size : Nat
  data : Option (List Byte)
  deriving DecidableEq, Repr

/-- The allocator: `malloc n` is `none` when the allocation fails, and otherwise a
fresh block of exactly `n` bytes with arbitrary contents. -/
structure Allocator where
  malloc : Nat → Option (List Byte)
  malloc_length : ∀ n b, malloc n = some b → b.length = n

/-- An allocator that serves every request with a zero-filled block. -/
def zeroAllocator : Allocator where
  malloc := fun n => some (List.replicate n 0)
  malloc_length := by
    intro n b h
    simp only [Option.some.injEq] at h
    rw [← h, List.length_replicate]

/-- An allocator whose every request fails. -/
def failingAllocator : Allocator where
  malloc := fun _ => none
  malloc_length := by
    intro n b h
    cases h

/-- `memcpy(dst + off, src, n)`: defined when the `n` bytes written lie inside `dst`
and the `n` bytes read lie inside `src`. -/
def memcpy (dst : List Byte) (off : Nat) (src : List Byte) (n : Nat) : Option (List Byte) :=
  if off + n ≤ dst.length ∧ n ≤ src.length then
    some (dst.take off ++ src.take n ++ dst.drop (off + n))
  else none

/-- `memmove(buf + dst, buf + src, n)` inside one block (overlap-safe): defined when
both ranges lie inside the block. -/
def memmove (buf : List Byte) (dst src n : Nat) : Option (List Byte) :=
  if src + n ≤ buf.length ∧ dst + n ≤ buf.length then
    some (buf.take dst ++ (buf.drop src).take n ++ buf.drop (dst + n))
  else none

/-! ## Information -/

def vector_is_initialized (vector : Vector) : Bool := vector.data.isSome

def vector_byte_size (vector : Vector) : Nat := mulw vector.size vector.element_size

def vector_free_space (vector : Vector) : Nat := subw vector.capacity vector.size

def vector_is_empty (vector : Vector) : Bool := vector.size == 0

/-! ## Private helpers -/

def _vector_should_grow (vector : Vector) : Bool := vector.size == vector.capacity

def _vector_should_shrink (cfg : Config) (vector : Vector) : Bool :=
  vector.size == cfg.capacity_times_SHRINK_THRESHOLD vector.capacity

/-- The byte offset from `data` of the pointer `_vector_offset` returns. -/
def _vector_offset (vector : Vector) (index : Nat) : Nat := mulw index vector.element_size

/-- `_vector_assign`: `memcpy` of `element_size` bytes from the caller's buffer to
slot `index`. -/
def _vector_assign (vector : Vector) (index : Nat) (element : Option (List Byte)) :
    Option Vector :=
  match vector.data, element with
  | some buf, some e =>
    match memcpy buf (_vector_offset vector index) e vector.element_size with
    | some buf1 => some { vector with data := some buf1 }
    | none => none
  | _, _ => none

/-- `_vector_move_right`: block move of the slots `[index, size)` one slot up. -/
def _vector_move_right (vector : Vector) (index : Nat) : Option (Int × Vector) :=
  let offset := _vector_offset vector index
  let elements_in_bytes := mulw (subw vector.size index) vector.element_size
  match vector.data with
  | some buf =>
    match memmove buf (offset + vector.element_size) offset elements_in_bytes with
    | some buf1 => some (VECTOR_SUCCESS, { vector with data := some buf1 })
    | none => none
  | none => none

/-- `_vector_move_left`: block move of the slots `(index, size)` one slot down. -/
def _vector_move_left (vector : Vector) (index : Nat) : Option Vector :=
  let offset := _vector_offset vector index
  let right_elements_in_bytes := mulw (subw (subw vector.size index) 1) vector.element_size
  match vector.data with
  | some buf =>
    match memmove buf offset (offset + vector.element_size) right_elements_in_bytes with
    | some buf1 => some { vector with data := some buf1 }
    | none => none
  | none => none

/-- `_vector_reallocate`: the floor rule, then `malloc`, `memcpy` of the live bytes,
the capacity update and `free` of the old block.  `vector->data` is overwritten by the
result of `malloc` before that result is tested. -/
def _vector_reallocate (cfg : Config) (heap : Allocator) (vector : Vector)
    (new_capacity : Nat) : Option (Int × Vector) :=
  if new_capacity < cfg.VECTOR_MINIMUM_CAPACITY ∧
      ¬ vector.capacity > cfg.VECTOR_MINIMUM_CAPACITY then
    some (VECTOR_SUCCESS, vector)
  else
    let new_capacity :=
      if new_capacity < cfg.VECTOR_MINIMUM_CAPACITY then cfg.VECTOR_MINIMUM_CAPACITY
      else new_capacity
    let new_capacity_in_bytes := mulw new_capacity vector.element_size
    let old := vector.data
    match heap.malloc new_capacity_in_bytes with
    | none => some (VECTOR_ERROR, { vector with data := none })
    | some fresh =>
      match old with
      | none => none
      | some oldbuf =>
        match memcpy fresh 0 oldbuf (vector_byte_size vector) with
        | none => none
        | some buf1 =>
          some (VECTOR_SUCCESS, { vector with data := some buf1, capacity := new_capacity })

def _vector_adjust_capacity (cfg : Config) (heap : Allocator) (vector : Vector) :
    Option (Int × Vector) :=
  _vector_reallocate cfg heap vector (MAX 1 (mulw vector.size cfg.VECTOR_GROWTH_FACTOR))

/-! ## Setup and whole-vector operations -/

/-- `vector_setup`: every field of the target is overwritten, so the old value of the
target is not an argument. -/
def vector_setup (cfg : Config) (heap : Allocator) (capacity element_size : Nat) :
    Int × Vector :=
  let capacity1 := MAX cfg.VECTOR_MINIMUM_CAPACITY capacity
  let data := heap.malloc (mulw capacity1 element_size)
  (if data.isNone then VECTOR_ERROR else VECTOR_SUCCESS,
    { size := 0, capacity := capacity1, element_size := element_size, data := data })

/-- `vector_copy`: the result is the status and the destination; the source is not
written. -/
def vector_copy (cfg : Config) (heap : Allocator) (destination source : Vector) :
    Option (Int × Vector) :=
  if vector_is_initialized destination then some (VECTOR_ERROR, destination)
  else if !vector_is_initialized source then some (VECTOR_ERROR, destination)
  else
    let capacity1 :=
      if source.size = 0 then cfg.VECTOR_MINIMUM_CAPACITY else mulw source.size 2
    let destination1 : Vector :=
      { size := source.size, capacity := capacity1,
        element_size := source.element_size, data := destination.data }
    match heap.malloc (mulw destination1.capacity source.element_size) with
    | none => some (VECTOR_ERROR, { destination1 with data := none })
    | some fresh =>
      match source.data with
      | none => none
      | some srcbuf =>
        match memcpy fresh 0 srcbuf (vector_byte_size source) with
        | none => none
        | some buf1 => some (VECTOR_SUCCESS, { destination1 with data := some buf1 })

/-- `vector_swap`: the result is the status, the destination and the source. -/
def vector_swap (destination source : Vector) : Int × Vector × Vector :=
  if !vector_is_initialized destination then (VECTOR_ERROR, destination, source)
  else if !vector_is_initialized source then (VECTOR_ERROR, destination, source)
  else (VECTOR_SUCCESS, source, destination)

def vector_destroy (vector : Vector) : Int × Vector :=
  (VECTOR_SUCCESS, { vector with data := none })

/-- `vector_move_assign`: the status of `vector_swap` is discarded and the status of
`vector_destroy` is returned; the result is the status, the destination and the
source. -/
def vector_move_assign (destination source : Vector) : Int × Vector × Vector :=
  let swapped := vector_swap destination source
  let destroyed := vector_destroy swapped.2.2
  (destroyed.1, swapped.2.1, destroyed.2)

/-! ## Insertion -/

def vector_push_back (cfg : Config) (heap : Allocator) (vector : Vector)
    (element : Option (List Byte)) : Option (Int × Vector) :=
  let grown : Option (Int × Vector) :=
    if _vector_should_grow vector then _vector_adjust_capacity cfg heap vector
    else some (VECTOR_SUCCESS, vector)
  match grown with
  | none => none
  | some (rc, vector1) =>
    if rc = VECTOR_ERROR then some (VECTOR_ERROR, vector1)
    else
      match _vector_assign vector1 vector1.size element with
      | none => none
      | some vector2 => some (VECTOR_SUCCESS, { vector2 with size := incw vector2.size })

def vector_insert (cfg : Config) (heap : Allocator) (vector : Vector) (index : Nat)
    (element : Option (List Byte)) : Option (Int × Vector) :=
  if element.isNone then some (VECTOR_ERROR, vector)
  else if vector.element_size = 0 then some (VECTOR_ERROR, vector)
  else if index > vector.size then some (VECTOR_ERROR, vector)
  else
    let grown : Option (Int × Vector) :=
      if _vector_should_grow vector then _vector_adjust_capacity cfg heap vector
      else some (VECTOR_SUCCESS, vector)
    match grown with
    | none => none
    | some (rc, vector1) =>
      if rc = VECTOR_ERROR then some (VECTOR_ERROR, vector1)
      else
        match _vector_move_right vector1 index with
        | none => none
        | some (rc1, vector2) =>
          if rc1 = VECTOR_ERROR then some (VECTOR_ERROR, vector2)
          else
            match _vector_assign vector2 index element with
            | none => none
            | some vector3 =>
              some (VECTOR_SUCCESS, { vector3 with size := incw vector3.size })

def vector_push_front (cfg : Config) (heap : Allocator) (vector : Vector)
    (element : Option (List Byte)) : Option (Int × Vector) :=
  vector_insert cfg heap vector 0 element

def vector_assign (vector : Vector) (index : Nat) (element : Option (List Byte)) :
    Option (Int × Vector) :=
  if element.isNone then some (VECTOR_ERROR, vector)
  else if vector.element_size = 0 then some (VECTOR_ERROR, vector)
  else if index ≥ vector.size then some (VECTOR_ERROR, vector)
  else
    match _vector_assign vector index element with
    | none => none
    | some vector1 => some (VECTOR_SUCCESS, vector1)

/-! ## Deletion -/

/-- `vector_pop_back`: the status of `_vector_adjust_capacity` is discarded. -/
def vector_pop_back (cfg : Config) (heap : Allocator) (vector : Vector) :
    Option (Int × Vector) :=
  if vector.element_size = 0 then some (VECTOR_ERROR, vector)
  else
    let vector1 : Vector := { vector with size := decw vector.size }
    if cfg.VECTOR_NO_SHRINK then some (VECTOR_SUCCESS, vector1)
    else if _vector_should_shrink cfg vector1 then
      match _vector_adjust_capacity cfg heap vector1 with
      | none => none
      | some (_, vector2) => some (VECTOR_SUCCESS, vector2)
    else some (VECTOR_SUCCESS, vector1)

/-- `vector_erase`: the decrement of `size` sits inside `#ifndef VECTOR_NO_SHRINK`; the
status of `_vector_adjust_capacity` is discarded. -/
def vector_erase (cfg : Config) (heap : Allocator) (vector : Vector) (index : Nat) :
    Option (Int × Vector) :=
  if vector.element_size = 0 then some (VECTOR_ERROR, vector)
  else if index ≥ vector.size then some (VECTOR_ERROR, vector)
  else
    match _vector_move_left vector index with
    | none => none
    | some vector1 =>
      if cfg.VECTOR_NO_SHRINK then some (VECTOR_SUCCESS, vector1)
      else
        let vector2 : Vector := { vector1 with size := decw vector1.size }
        if vector2.size = vector2.capacity / 4 then
          match _vector_adjust_capacity cfg heap vector2 with
          | none => none
          | some (_, vector3) => some (VECTOR_SUCCESS, vector3)
        else some (VECTOR_SUCCESS, vector2)

def vector_pop_front (cfg : Config) (heap : Allocator) (vector : Vector) :
    Option (Int × Vector) :=
  vector_erase cfg heap vector 0

/-! ## Memory management -/

def vector_resize (cfg : Config) (heap : Allocator) (vector : Vector) (new_size : Nat) :
    Option (Int × Vector) :=
  if new_size ≤ cfg.capacity_times_SHRINK_THRESHOLD vector.capacity then
    let vector1 : Vector := { vector with size := new_size }
    match _vector_reallocate cfg heap vector1 (mulw new_size cfg.VECTOR_GROWTH_FACTOR) with
    | none => none
    | some (rc, vector2) =>
      if rc = -1 then some (VECTOR_ERROR, vector2)
      else some (VECTOR_SUCCESS, { vector2 with size := new_size })
  else if new_size > vector.capacity then
    match _vector_reallocate cfg heap vector (mulw new_size cfg.VECTOR_GROWTH_FACTOR) with
    | none => none
    | some (rc, vector2) =>
      if rc = -1 then some (VECTOR_ERROR, vector2)
      else some (VECTOR_SUCCESS, { vector2 with size := new_size })
  else some (VECTOR_SUCCESS, { vector with size := new_size })

def vector_clear (cfg : Config) (heap : Allocator) (vector : Vector) :
    Option (Int × Vector) :=
  vector_resize cfg heap vector 0

def vector_reserve (cfg : Config) (heap : Allocator) (vector : Vector)
    (minimum_capacity : Nat) : Option (Int × Vector) :=
  if minimum_capacity > vector.capacity then
    match _vector_reallocate cfg heap vector minimum_capacity with
    | none => none
    | some (rc, vector1) =>
      if rc = VECTOR_ERROR then some (VECTOR_ERROR, vector1)
      else some (VECTOR_SUCCESS, vector1)
  else some (VECTOR_SUCCESS, vector)

def vector_shrink_to_fit (cfg : Config) (heap : Allocator) (vector : Vector) :
    Option (Int × Vector) :=
  _vector_reallocate cfg heap vector vector.size

/-! ## Lookup -/

/-- `vector_get`: `none` is the null pointer, `some off` the pointer `data + off`. -/
def vector_get (vector : Vector) (index : Nat) : Option Nat :=
  if vector.element_size = 0 then none
  else if index ≥ vector.size then none
  else some (_vector_offset vector index)

/-- Modelled from the spec: the macro `VECTOR_GET_AS` of the absent `vector.h`, which
`test.c` uses to read an element: it dereferences the pointer `vector_get` returns.  The
result is the `element_size` bytes read through that pointer, `none` when the pointer is
null or the read leaves the block. -/
def VECTOR_GET_AS (vector : Vector) (index : Nat) : Option (List Byte) :=
  match vector.data, vector_get vector index with
  | some buf, some off =>
    if off + vector.element_size ≤ buf.length then
      some ((buf.drop off).take vector.element_size)
    else none
  | _, _ => none

def _vector_const_offset (vector : Vector) (index : Nat) : Nat :=
  mulw index vector.element_size

def vector_const_get (vector : Vector) (index : Nat) : Option Nat :=
  if vector.element_size = 0 then none
  else if index ≥ vector.size then none
  else some (_vector_const_offset vector index)

def vector_front (vector : Vector) : Option Nat := vector_get vector 0

/-- `vector_back`: the index `size - 1` is computed in `size_t`. -/
def vector_back (vector : Vector) : Option Nat := vector_get vector (subw vector.size 1)

/-! ## Iterators -/

/-- The `Iterator` struct.  `pointer` is the byte offset from the `data` of the vector the
cursor was made for, `none` the null pointer. -/
structure Iterator where
  pointer : Option Nat
  element_size : Nat
  deriving DecidableEq, Repr

def vector_iterator (vector : Vector) (index : Nat) : Iterator :=
  if index > vector.size then { pointer := none, element_size := 0 }
  else if vector.element_size = 0 then { pointer := none, element_size := 0 }
  else { pointer := some (_vector_offset vector index), element_size := vector.element_size }

def vector_begin (vector : Vector) : Iterator := vector_iterator vector 0

def vector_end (vector : Vector) : Iterator := vector_iterator vector vector.size

def iterator_get (iterator : Iterator) : Option Nat := iterator.pointer

/-- `iterator_increment`: the pointer moves up by `element_size` bytes; a null pointer
stays null. -/
def iterator_increment (iterator : Iterator) : Iterator :=
  { iterator with pointer := iterator.pointer.map (fun off => off + iterator.element_size) }

def iterator_equals (first second : Iterator) : Bool := first.pointer == second.pointer

/-- `iterator_index`: `(pointer - data) / element_size`, undefined for a null pointer, a
null `data` or a zero `element_size`. -/
def iterator_index (vector : Vector) (iterator : Iterator) : Option Nat :=
  match vector.data, iterator.pointer with
  | some _, some off =>
    if vector.element_size = 0 then none else some (off / vector.element_size)
  | _, _ => none

/-- The walk of the iteration contract from the cursor `iterator` to the cursor `last` by
repeated `iterator_increment`: the pointers `iterator_get` returns at the visited
positions, or `none` when the end is not met within `fuel` steps. -/
def iterator_walk : Nat → Iterator → Iterator → Option (List (Option Nat))
  | 0, iterator, last => if iterator_equals iterator last then some [] else none
  | fuel + 1, iterator, last =>
    if iterator_equals iterator last then some []
    else
      match iterator_walk fuel (iterator_increment iterator) last with
      | some visited => some (iterator_get iterator :: visited)
      | none => none

/-- Modelled from the spec: the macro `VECTOR_FOR_EACH` of the absent `vector.h`, which
`test.c` uses to iterate: the walk from `vector_begin` to `vector_end` by repeated
`iterator_increment`. -/
def VECTOR_FOR_EACH (fuel : Nat) (vector : Vector) : Option (List (Option Nat)) :=
  iterator_walk fuel (vector_begin vector) (vector_end vector)

/-! ## Validity -/

/-- An initialized vector of the data model: `data` points to a block of
`capacity * element_size` bytes, as `vector_setup` and `_vector_reallocate` allocate it,
the fields are `size_t` values, and the `size` logical elements lie inside the block. -/
def Initialized (vector : Vector) : Prop :=
  vector.data.map List.length = some (vector.capacity * vector.element_size) ∧
  vector.capacity * vector.element_size < SIZE_MOD ∧
  vector.capacity < SIZE_MOD ∧ vector.element_size < SIZE_MOD ∧
  vector.size ≤ vector.capacity

instance (vector : Vector) : Decidable (Initialized vector) := by
  unfold Initialized
  infer_instance

/-- The container invariant of the data model. -/
def Invariant (cfg : Config) (vector : Vector) : Prop :=
  vector.size ≤ vector.capacity ∧ cfg.VECTOR_MINIMUM_CAPACITY ≤ vector.capacity

instance (cfg : Config) (vector : Vector) : Decidable (Invariant cfg vector) := by
  unfold Invariant
  infer_instance

/-! ## Capacities and reachable states -/

/-- The capacity `_vector_reallocate` leaves on success, for the target `nc` and the
old capacity `c`: the floor rule of the source. -/
def reallocated_capacity (cfg : Config) (nc c : Nat) : Nat :=
  if nc < cfg.VECTOR_MINIMUM_CAPACITY ∧ c ≤ cfg.VECTOR_MINIMUM_CAPACITY then c
  else max nc cfg.VECTOR_MINIMUM_CAPACITY

/-- The capacity `_vector_adjust_capacity` leaves after a removal down to `n` elements
from capacity `c`. -/
def shrunk_capacity (cfg : Config) (n c : Nat) : Nat :=
  reallocated_capacity cfg (max 1 (n * cfg.VECTOR_GROWTH_FACTOR)) c

/-- The states reached from a successful `vector_setup` by successful operations, each
called within its precondition and with every size it computes representable in
`size_t`: the arguments of `vector_setup`, `vector_reserve` are `size_t` values, and the
products `size * VECTOR_GROWTH_FACTOR` of a growth, `(size - 1) * VECTOR_GROWTH_FACTOR`
of a shrink, `new_size * VECTOR_GROWTH_FACTOR` of a reallocating resize and `size * 2`
of a copy do not wrap. -/
inductive Reachable (cfg : Config) : Vector → Prop
  | setup (heap : Allocator) (capacity element_size : Nat) :
      capacity < SIZE_MOD →
      (vector_setup cfg heap capacity element_size).1 = VECTOR_SUCCESS →
      Reachable cfg (vector_setup cfg heap capacity element_size).2
  | copy (heap : Allocator) (destination source v1 : Vector) :
      Reachable cfg source → source.size * 2 < SIZE_MOD →
      vector_copy cfg heap destination source = some (VECTOR_SUCCESS, v1) →
      Reachable cfg v1
  | push_back (heap : Allocator) (v : Vector) (e : Option (List Byte)) (v1 : Vector) :
      Reachable cfg v →
      (v.size = v.capacity → v.size * cfg.VECTOR_GROWTH_FACTOR < SIZE_MOD) →
      vector_push_back cfg heap v e = some (VECTOR_SUCCESS, v1) →
      Reachable cfg v1
  | push_front (heap : Allocator) (v : Vector) (e : Option (List Byte)) (v1 : Vector) :
      Reachable cfg v →
      (v.size = v.capacity → v.size * cfg.VECTOR_GROWTH_FACTOR < SIZE_MOD) →
      vector_push_front cfg heap v e = some (VECTOR_SUCCESS, v1) →
      Reachable cfg v1
  | insert (heap : Allocator) (v : Vector) (index : Nat) (e : Option (List Byte))
      (v1 : Vector) :
      Reachable cfg v →
      (v.size = v.capacity → v.size * cfg.VECTOR_GROWTH_FACTOR < SIZE_MOD) →
      vector_insert cfg heap v index e = some (VECTOR_SUCCESS, v1) →
      Reachable cfg v1
  | assign (v : Vector) (index : Nat) (e : Option (List Byte)) (v1 : Vector) :
      Reachable cfg v →
      vector_assign v index e = some (VECTOR_SUCCESS, v1) →
      Reachable cfg v1
  | pop_back (heap : Allocator) (v v1 : Vector) :
      Reachable cfg v → 0 < v.size →
      (v.size - 1 = cfg.capacity_times_SHRINK_THRESHOLD v.capacity →
        (v.size - 1) * cfg.VECTOR_GROWTH_FACTOR < SIZE_MOD) →
      vector_pop_back cfg heap v = some (VECTOR_SUCCESS, v1) →
      Reachable cfg v1
  | pop_front (heap : Allocator) (v v1 : Vector) :
      Reachable cfg v →
      (v.size - 1 = v.capacity / 4 → (v.size - 1) * cfg.VECTOR_GROWTH_FACTOR < SIZE_MOD) →
      vector_pop_front cfg heap v = some (VECTOR_SUCCESS, v1) →
      Reachable cfg v1
  | erase (heap : Allocator) (v : Vector) (index : Nat) (v1 : Vector) :
      Reachable cfg v →
      (v.size - 1 = v.capacity / 4 → (v.size - 1) * cfg.VECTOR_GROWTH_FACTOR < SIZE_MOD) →
      vector_erase cfg heap v index = some (VECTOR_SUCCESS, v1) →
      Reachable cfg v1
  | clear (heap : Allocator) (v v1 : Vector) :
      Reachable cfg v →
      vector_clear cfg heap v = some (VECTOR_SUCCESS, v1) →
      Reachable cfg v1
  | resize (heap : Allocator) (v : Vector) (new_size : Nat) (v1 : Vector) :
      Reachable cfg v →
      (new_size ≤ cfg.capacity_times_SHRINK_THRESHOLD v.capacity ∨ v.capacity < new_size →
        new_size * cfg.VECTOR_GROWTH_FACTOR < SIZE_MOD) →
      vector_resize cfg heap v new_size = some (VECTOR_SUCCESS, v1) →
      Reachable cfg v1
  | reserve (heap : Allocator) (v : Vector) (minimum_capacity : Nat) (v1 : Vector) :
      Reachable cfg v → minimum_capacity < SIZE_MOD →
      vector_reserve cfg heap v minimum_capacity = some (VECTOR_SUCCESS, v1) →
      Reachable cfg v1
  | shrink_to_fit (heap : Allocator) (v v1 : Vector) :
      Reachable cfg v →
      vector_shrink_to_fit cfg heap v = some (VECTOR_SUCCESS, v1) →
      Reachable cfg v1
  | swap_destination (destination source : Vector) :
      Reachable cfg destination → Reachable cfg source →
      (vector_swap destination source).1 = VECTOR_SUCCESS →
      Reachable cfg (vector_swap destination source).2.1
  | swap_source (destination source : Vector) :
      Reachable cfg destination → Reachable cfg source →
      (vector_swap destination source).1 = VECTOR_SUCCESS →
      Reachable cfg (vector_swap destination source).2.2

/-! ## Arithmetic and memory lemmas -/

theorem mulw_eq {a b : Nat} (h : a * b < SIZE_MOD) : mulw a b = a * b :=
  Nat.mod_eq_of_lt h

theorem incw_eq {a : Nat} (h : a + 1 < SIZE_MOD) : incw a = a + 1 :=
  Nat.mod_eq_of_lt h

theorem decw_eq {a : Nat} (h0 : 0 < a) (h : a < SIZE_MOD) : decw a = a - 1 := by
  unfold decw
  have e : a + SIZE_MOD - 1 = (a - 1) + SIZE_MOD := by omega
  rw [e, Nat.add_mod_right]
  exact Nat.mod_eq_of_lt (by omega)

theorem subw_eq {a b : Nat} (hba : b ≤ a) (h : a < SIZE_MOD) : subw a b = a - b := by
  unfold subw
  have hb : b % SIZE_MOD = b := Nat.mod_eq_of_lt (by omega)
  have e : a + SIZE_MOD - b = (a - b) + SIZE_MOD := by omega
  rw [hb, e, Nat.add_mod_right]
  exact Nat.mod_eq_of_lt (by omega)

theorem MAX_eq_max (a b : Nat) : MAX a b = max a b := by
  unfold MAX
  split <;> omega

theorem memcpy_some_iff {dst src : List Byte} {off n : Nat} {r : List Byte} :
    memcpy dst off src n = some r ↔
      (off + n ≤ dst.length ∧ n ≤ src.length) ∧
        r = dst.take off ++ src.take n ++ dst.drop (off + n) := by
  unfold memcpy
  split
  · simp [*, eq_comm]
  · simp [*]

theorem memcpy_length {dst src : List Byte} {off n : Nat} {r : List Byte}
    (h : memcpy dst off src n = some r) : r.length = dst.length := by
  obtain ⟨⟨h1, h2⟩, rfl⟩ := memcpy_some_iff.mp h
  simp only [List.length_append, List.length_take, List.length_drop]
  omega

theorem memcpy_getElem? {dst src : List Byte} {off n : Nat} {r : List Byte}
    (h : memcpy dst off src n = some r) (k : Nat) :
    r[k]? = if off ≤ k ∧ k < off + n then src[k - off]? else dst[k]? := by
  obtain ⟨⟨h1, h2⟩, rfl⟩ := memcpy_some_iff.mp h
  simp only [List.getElem?_append, List.length_append, List.length_take, List.getElem?_take,
    List.getElem?_drop]
  have e1 : min off dst.length = off := by omega
  have e2 : min n src.length = n := by omega
  rw [e1, e2]
  by_cases c1 : k < off
  · have : ¬ (off ≤ k ∧ k < off + n) := by omega
    rw [if_neg this]
    simp [c1, show k < off + n by omega]
  · by_cases c2 : k < off + n
    · have : (off ≤ k ∧ k < off + n) := by omega
      simp [c1, c2, this, show k - off < n by omega]
    · have : ¬ (off ≤ k ∧ k < off + n) := by omega
      simp [c1, c2, this]
      congr 1
      omega

theorem memmove_some_iff {buf : List Byte} {dst src n : Nat} {r : List Byte} :
    memmove buf dst src n = some r ↔
      (src + n ≤ buf.length ∧ dst + n ≤ buf.length) ∧
        r = buf.take dst ++ (buf.drop src).take n ++ buf.drop (dst + n) := by
  unfold memmove
  split
  · simp [*, eq_comm]
  · simp [*]

theorem memmove_length {buf : List Byte} {dst src n : Nat} {r : List Byte}
    (h : memmove buf dst src n = some r) : r.length = buf.length := by
  obtain ⟨⟨h1, h2⟩, rfl⟩ := memmove_some_iff.mp h
  simp only [List.length_append, List.length_take, List.length_drop]
  omega

theorem memmove_getElem? {buf : List Byte} {dst src n : Nat} {r : List Byte}
    (h : memmove buf dst src n = some r) (k : Nat) :
    r[k]? = if dst ≤ k ∧ k < dst + n then buf[src + (k - dst)]? else buf[k]? := by
  obtain ⟨⟨h1, h2⟩, rfl⟩ := memmove_some_iff.mp h
  simp only [List.getElem?_append, List.length_append, List.length_take, List.getElem?_take,
    List.getElem?_drop, List.length_drop]
  have e1 : min dst buf.length = dst := by omega
  have e2 : min n (buf.length - src) = n := by omega
  rw [e1, e2]
  by_cases c1 : k < dst
  · have : ¬ (dst ≤ k ∧ k < dst + n) := by omega
    rw [if_neg this]
    simp [c1, show k < dst + n by omega]
  · by_cases c2 : k < dst + n
    · have : (dst ≤ k ∧ k < dst + n) := by omega
      simp [c1, c2, this, show k - dst < n by omega]
    · have : ¬ (dst ≤ k ∧ k < dst + n) := by omega
      simp [c1, c2, this]
      congr 1
      omega

theorem memcpy_defined (dst : List Byte) (off : Nat) (src : List Byte) (n : Nat)
    (h1 : off + n ≤ dst.length) (h2 : n ≤ src.length) :
    ∃ r, memcpy dst off src n = some r := by
  unfold memcpy
  rw [if_pos ⟨h1, h2⟩]
  exact ⟨_, rfl⟩

theorem memmove_defined (buf : List Byte) (dst src n : Nat)
    (h1 : src + n ≤ buf.length) (h2 : dst + n ≤ buf.length) :
    ∃ r, memmove buf dst src n = some r := by
  unfold memmove
  rw [if_pos ⟨h1, h2⟩]
  exact ⟨_, rfl⟩

/-- The bytes of a slice, one at a time. -/
theorem slice_getElem? (buf : List Byte) (off n k : Nat) :
    ((buf.drop off).take n)[k]? = if k < n then buf[off + k]? else none := by
  rw [List.getElem?_take, List.getElem?_drop]

/-- Two slices of the same width agree when they agree byte by byte. -/
theorem slice_congr {b1 b2 : List Byte} {o1 o2 n : Nat}
    (h : ∀ k, k < n → b1[o1 + k]? = b2[o2 + k]?) :
    (b1.drop o1).take n = (b2.drop o2).take n := by
  apply List.ext_getElem?
  intro k
  rw [slice_getElem?, slice_getElem?]
  split
  · exact h k ‹_›
  · rfl

/-- A slice equals a given element when it agrees with it byte by byte. -/
theorem slice_eq_of_getElem? {b : List Byte} {o n : Nat} {e : List Byte}
    (hn : e.length = n) (h : ∀ k, k < n → b[o + k]? = e[k]?) :
    (b.drop o).take n = e := by
  apply List.ext_getElem?
  intro k
  rw [slice_getElem?]
  split
  · exact h k ‹_›
  · exact (List.getElem?_eq_none (by omega)).symm

/-- Slot `j` ends before slot `i` starts when `j < i`. -/
theorem slot_le (es : Nat) {i j : Nat} (h : j < i) : j * es + es ≤ i * es := by
  have : (j + 1) * es ≤ i * es := Nat.mul_le_mul_right es h
  rw [Nat.add_mul, Nat.one_mul] at this
  exact this

theorem Initialized.block {v : Vector} (h : Initialized v) :
    ∃ buf, v.data = some buf ∧ buf.length = v.capacity * v.element_size := by
  obtain ⟨h1, -⟩ := h
  cases hd : v.data with
  | none => rw [hd] at h1; cases h1
  | some buf =>
    rw [hd] at h1
    exact ⟨buf, rfl, by simpa using h1⟩

theorem VECTOR_GET_AS_of_ge (v : Vector) {j : Nat} (hj : v.size ≤ j) :
    VECTOR_GET_AS v j = none := by
  unfold VECTOR_GET_AS vector_get
  cases v.data <;> simp [hj]

theorem offset_eq {v : Vector} (h : Initialized v) {j : Nat} (hj : j ≤ v.capacity) :
    _vector_offset v j = j * v.element_size := by
  unfold _vector_offset
  apply mulw_eq
  have := Nat.mul_le_mul_right v.element_size hj
  have := h.2.1
  omega

theorem VECTOR_GET_AS_of_lt {v : Vector} {buf : List Byte} (h : Initialized v)
    (hd : v.data = some buf) (hes : 0 < v.element_size) {j : Nat} (hj : j < v.size) :
    VECTOR_GET_AS v j = some ((buf.drop (j * v.element_size)).take v.element_size) := by
  obtain ⟨b, hb, hlen⟩ := h.block
  rw [hd] at hb
  cases hb
  have hsz := h.2.2.2.2
  have hoff := offset_eq h (show j ≤ v.capacity by omega)
  have hle := slot_le v.element_size (show j < v.capacity by omega)
  unfold VECTOR_GET_AS vector_get
  rw [hd]
  simp only [show v.element_size ≠ 0 by omega, if_false, show ¬ j ≥ v.size by omega, hoff]
  rw [if_pos (by omega)]

/-- Writing one element into a slot inside the block: the block keeps its length, the
slot holds the element and every other byte is unchanged. -/
theorem _vector_assign_spec {v : Vector} {buf : List Byte} (h : Initialized v)
    (hd : v.data = some buf) {i : Nat} (hi : i < v.capacity) {e : List Byte}
    (he : e.length = v.element_size) :
    ∃ r, _vector_assign v i (some e) = some { v with data := some r } ∧
      r.length = buf.length ∧
      ∀ k, r[k]? = if i * v.element_size ≤ k ∧ k < i * v.element_size + v.element_size
        then e[k - i * v.element_size]? else buf[k]? := by
  obtain ⟨b, hb, hlen⟩ := h.block
  rw [hd] at hb
  cases hb
  have hoff := offset_eq h (Nat.le_of_lt hi)
  have hle := slot_le v.element_size hi
  obtain ⟨r, hr⟩ := memcpy_defined buf (i * v.element_size) e (v.element_size) (by omega) (by omega)
  refine ⟨r, ?_, memcpy_length hr, memcpy_getElem? hr⟩
  unfold _vector_assign
  rw [hd]
  simp only [hoff, hr]

/-- The validity of a vector depends on its block only through the block's length. -/
theorem Initialized.with_data {v : Vector} (h : Initialized v) {buf r : List Byte}
    (hd : v.data = some buf) (hr : r.length = buf.length) :
    Initialized { v with data := some r } := by
  obtain ⟨b, hb, hlen⟩ := h.block
  rw [hd] at hb
  cases hb
  obtain ⟨-, h2, h3, h4, h5⟩ := h
  refine ⟨?_, h2, h3, h4, h5⟩
  simp [hr, hlen]

/-- The floor rule of `_vector_reallocate`: a target below the minimum capacity is a
no-op when the capacity does not exceed the minimum. -/
theorem _vector_reallocate_noop (cfg : Config) (heap : Allocator) (v : Vector) (nc : Nat)
    (h1 : nc < cfg.VECTOR_MINIMUM_CAPACITY) (h2 : v.capacity ≤ cfg.VECTOR_MINIMUM_CAPACITY) :
    _vector_reallocate cfg heap v nc = some (VECTOR_SUCCESS, v) := by
  unfold _vector_reallocate
  rw [if_pos ⟨h1, by omega⟩]

/-- When `malloc` fails, `_vector_reallocate` returns `ERROR` and `data` is null. -/
theorem _vector_reallocate_fail (cfg : Config) (heap : Allocator) (v : Vector) (nc : Nat)
    (h : ¬ (nc < cfg.VECTOR_MINIMUM_CAPACITY ∧ v.capacity ≤ cfg.VECTOR_MINIMUM_CAPACITY))
    (hm : heap.malloc (mulw (max nc cfg.VECTOR_MINIMUM_CAPACITY) v.element_size) = none) :
    _vector_reallocate cfg heap v nc = some (VECTOR_ERROR, { v with data := none }) := by
  unfold _vector_reallocate
  rw [if_neg (by omega)]
  have e : (if nc < cfg.VECTOR_MINIMUM_CAPACITY then cfg.VECTOR_MINIMUM_CAPACITY else nc) =
      max nc cfg.VECTOR_MINIMUM_CAPACITY := by split <;> omega
  simp only [e, hm]

/-- When `malloc` succeeds and the target holds the live elements,
`_vector_reallocate` returns `SUCCESS` with a block of the target capacity whose live
bytes are those of the old block. -/
theorem _vector_reallocate_ok (cfg : Config) (heap : Allocator) {v : Vector}
    {buf : List Byte} (hinit : Initialized v) (hd : v.data = some buf) (nc : Nat)
    (h : ¬ (nc < cfg.VECTOR_MINIMUM_CAPACITY ∧ v.capacity ≤ cfg.VECTOR_MINIMUM_CAPACITY))
    (hfit : max nc cfg.VECTOR_MINIMUM_CAPACITY * v.element_size < SIZE_MOD)
    (hsz : v.size ≤ max nc cfg.VECTOR_MINIMUM_CAPACITY)
    (hm : heap.malloc (max nc cfg.VECTOR_MINIMUM_CAPACITY * v.element_size) ≠ none) :
    ∃ r, _vector_reallocate cfg heap v nc =
        some (VECTOR_SUCCESS,
          { v with data := some r, capacity := max nc cfg.VECTOR_MINIMUM_CAPACITY }) ∧
      r.length = max nc cfg.VECTOR_MINIMUM_CAPACITY * v.element_size ∧
      ∀ k, k < v.size * v.element_size → r[k]? = buf[k]? := by
  obtain ⟨b, hb, hlen⟩ := hinit.block
  rw [hd] at hb
  cases hb
  obtain ⟨-, hcb, hc, hes, hsc⟩ := hinit
  cases hfr : heap.malloc (max nc cfg.VECTOR_MINIMUM_CAPACITY * v.element_size) with
  | none => exact absurd hfr hm
  | some fresh =>
    have hfl := heap.malloc_length _ _ hfr
    have hbs : vector_byte_size v = v.size * v.element_size := by
      unfold vector_byte_size
      apply mulw_eq
      have := Nat.mul_le_mul_right v.element_size hsc
      omega
    have h1 := Nat.mul_le_mul_right v.element_size hsz
    have h2 := Nat.mul_le_mul_right v.element_size hsc
    obtain ⟨r, hr⟩ := memcpy_defined fresh (0) buf (v.size * v.element_size) (by omega) (by omega)
    refine ⟨r, ?_, by rw [memcpy_length hr, hfl], ?_⟩
    · unfold _vector_reallocate
      rw [if_neg (by omega)]
      have e : (if nc < cfg.VECTOR_MINIMUM_CAPACITY then cfg.VECTOR_MINIMUM_CAPACITY else nc) =
          max nc cfg.VECTOR_MINIMUM_CAPACITY := by split <;> omega
      simp only [e, mulw_eq hfit, hfr, hd, hbs, hr]
    · intro k hk
      rw [memcpy_getElem? hr, if_pos (by omega)]
      rfl

/-- The vector `_vector_reallocate` returns on success is initialized. -/
theorem Initialized.realloc {v : Vector} (hinit : Initialized v) {r : List Byte} {c : Nat}
    (hr : r.length = c * v.element_size) (hfit : c * v.element_size < SIZE_MOD)
    (hc : c < SIZE_MOD) (hsz : v.size ≤ c) :
    Initialized { v with data := some r, capacity := c } := by
  refine ⟨?_, hfit, hc, hinit.2.2.2.1, hsz⟩
  simp [hr]

/-- The growth step shared by `vector_push_back` and `vector_insert`: afterwards there
is a free slot, the live bytes are unchanged, and the capacity changed only if the
vector was full. -/
theorem grow_step (cfg : Config) (heap : Allocator) {v : Vector} {buf : List Byte}
    (hG : 2 ≤ cfg.VECTOR_GROWTH_FACTOR) (hinit : Initialized v) (hinv : Invariant cfg v)
    (hd : v.data = some buf) (halloc : ∀ n, heap.malloc n ≠ none)
    (hfit : v.size = v.capacity →
      v.size * cfg.VECTOR_GROWTH_FACTOR < SIZE_MOD ∧
      v.size * cfg.VECTOR_GROWTH_FACTOR * v.element_size < SIZE_MOD) :
    ∃ v1 buf1,
      (if _vector_should_grow v then _vector_adjust_capacity cfg heap v
        else some (VECTOR_SUCCESS, v)) = some (VECTOR_SUCCESS, v1) ∧
      Initialized v1 ∧ v1.data = some buf1 ∧ v1.size = v.size ∧
      v1.element_size = v.element_size ∧ v.size < v1.capacity ∧
      cfg.VECTOR_MINIMUM_CAPACITY ≤ v1.capacity ∧
      (∀ k, k < v.size * v.element_size → buf1[k]? = buf[k]?) ∧
      (v.size ≠ v.capacity → v1.capacity = v.capacity) ∧
      (v.size = v.capacity → v1.capacity = max 1 (v.size * cfg.VECTOR_GROWTH_FACTOR)) := by
  obtain ⟨hsc, hmin⟩ := hinv
  by_cases hfull : v.size = v.capacity
  · obtain ⟨hf1, hf2⟩ := hfit hfull
    have hes := hinit.2.2.2.1
    have hmod : 1 < SIZE_MOD := by decide
    have hge : v.size ≤ v.size * cfg.VECTOR_GROWTH_FACTOR :=
      Nat.le_mul_of_pos_right _ (by omega)
    have h2 : 2 * v.size ≤ v.size * cfg.VECTOR_GROWTH_FACTOR := by
      rw [Nat.mul_comm 2]
      exact Nat.mul_le_mul_left _ hG
    have hc : max (MAX 1 (mulw v.size cfg.VECTOR_GROWTH_FACTOR)) cfg.VECTOR_MINIMUM_CAPACITY =
        max 1 (v.size * cfg.VECTOR_GROWTH_FACTOR) := by
      rw [MAX_eq_max, mulw_eq hf1]
      omega
    have hce : max 1 (v.size * cfg.VECTOR_GROWTH_FACTOR) * v.element_size < SIZE_MOD := by
      rcases Nat.le_total 1 (v.size * cfg.VECTOR_GROWTH_FACTOR) with h | h
      · rw [Nat.max_eq_right h]; exact hf2
      · rw [Nat.max_eq_left h, Nat.one_mul]; exact hes
    obtain ⟨r, hr, hrl, hrg⟩ := _vector_reallocate_ok cfg heap hinit hd
      (MAX 1 (mulw v.size cfg.VECTOR_GROWTH_FACTOR))
      (by rw [MAX_eq_max, mulw_eq hf1]; omega) (by rw [hc]; exact hce) (by rw [hc]; omega)
      (halloc _)
    rw [hc] at hr hrl
    refine ⟨_, r, ?_, hinit.realloc hrl hce (by omega) (by omega), rfl, rfl, rfl, ?_, ?_,
      hrg, fun h => absurd hfull h, fun _ => rfl⟩
    · unfold _vector_should_grow _vector_adjust_capacity
      rw [if_pos (by simpa using hfull)]
      exact hr
    · show v.size < max 1 (v.size * cfg.VECTOR_GROWTH_FACTOR)
      omega
    · show cfg.VECTOR_MINIMUM_CAPACITY ≤ max 1 (v.size * cfg.VECTOR_GROWTH_FACTOR)
      omega
  · refine ⟨v, buf, ?_, hinit, hd, rfl, rfl, by omega, hmin, fun _ _ => rfl, fun _ => rfl,
      fun h => absurd h hfull⟩
    unfold _vector_should_grow
    rw [if_neg (by simpa using hfull)]

/-- `_vector_move_right` on a vector with a free slot: the bytes of the slots
`[i, size)` move up by one slot and every other byte is unchanged. -/
theorem _vector_move_right_spec {v : Vector} {buf : List Byte} (hinit : Initialized v)
    (hd : v.data = some buf) {i : Nat} (hi : i ≤ v.size) (hlt : v.size < v.capacity) :
    ∃ r, _vector_move_right v i = some (VECTOR_SUCCESS, { v with data := some r }) ∧
      r.length = buf.length ∧
      ∀ k, r[k]? =
        if i * v.element_size + v.element_size ≤ k ∧
            k < v.size * v.element_size + v.element_size
        then buf[k - v.element_size]? else buf[k]? := by
  obtain ⟨b, hb, hlen⟩ := hinit.block
  rw [hd] at hb
  cases hb
  obtain ⟨-, hcb, hc, hes, hsc⟩ := hinit
  have hoff : _vector_offset v i = i * v.element_size := by
    unfold _vector_offset
    apply mulw_eq
    have := Nat.mul_le_mul_right v.element_size (show i ≤ v.capacity by omega)
    omega
  have h1 : (v.size - i) * v.element_size = v.size * v.element_size - i * v.element_size :=
    Nat.sub_mul _ _ _
  have h2 := Nat.mul_le_mul_right v.element_size hi
  have h3 := slot_le v.element_size hlt
  have hn : mulw (subw v.size i) v.element_size = (v.size - i) * v.element_size := by
    rw [subw_eq hi (by omega)]
    apply mulw_eq
    omega
  obtain ⟨r, hr⟩ := memmove_defined buf (i * v.element_size + v.element_size) (i * v.element_size) ((v.size - i) * v.element_size) (by omega) (by omega)
  refine ⟨r, ?_, memmove_length hr, ?_⟩
  · unfold _vector_move_right
    simp only [hd, hoff, hn, hr]
  · intro k
    rw [memmove_getElem? hr]
    by_cases hk : i * v.element_size + v.element_size ≤ k ∧
        k < v.size * v.element_size + v.element_size
    · rw [if_pos (by omega), if_pos hk]
      congr 1
      omega
    · rw [if_neg (by omega), if_neg hk]

/-- `_vector_move_left` below `size`: the bytes of the slots `(i, size)` move down by
one slot and every other byte is unchanged. -/
theorem _vector_move_left_spec {v : Vector} {buf : List Byte} (hinit : Initialized v)
    (hd : v.data = some buf) {i : Nat} (hi : i < v.size) :
    ∃ r, _vector_move_left v i = some { v with data := some r } ∧
      r.length = buf.length ∧
      ∀ k, r[k]? =
        if i * v.element_size ≤ k ∧ k + v.element_size < v.size * v.element_size
        then buf[k + v.element_size]? else buf[k]? := by
  obtain ⟨b, hb, hlen⟩ := hinit.block
  rw [hd] at hb
  cases hb
  obtain ⟨-, hcb, hc, hes, hsc⟩ := hinit
  have hoff : _vector_offset v i = i * v.element_size := by
    unfold _vector_offset
    apply mulw_eq
    have := Nat.mul_le_mul_right v.element_size (show i ≤ v.capacity by omega)
    omega
  have h1 : (v.size - i - 1) * v.element_size =
      v.size * v.element_size - i * v.element_size - v.element_size := by
    rw [Nat.sub_mul, Nat.sub_mul, Nat.one_mul]
  have h2 := slot_le v.element_size hi
  have h3 := Nat.mul_le_mul_right v.element_size hsc
  have hn : mulw (subw (subw v.size i) 1) v.element_size =
      (v.size - i - 1) * v.element_size := by
    rw [subw_eq (Nat.le_of_lt hi) (by omega), subw_eq (by omega) (by omega)]
    apply mulw_eq
    omega
  obtain ⟨r, hr⟩ := memmove_defined buf (i * v.element_size) (i * v.element_size + v.element_size) ((v.size - i - 1) * v.element_size) (by omega) (by omega)
  refine ⟨r, ?_, memmove_length hr, ?_⟩
  · unfold _vector_move_left
    simp only [hd, hoff, hn, hr]
  · intro k
    rw [memmove_getElem? hr]
    by_cases hk : i * v.element_size ≤ k ∧ k + v.element_size < v.size * v.element_size
    · rw [if_pos (by omega), if_pos hk]
      congr 1
      omega
    · rw [if_neg (by omega), if_neg hk]

/-- What a successful `vector_insert` does, with the validity of the result: used for
the insertion contract and for sequences of operations. -/
theorem vector_insert_core (cfg : Config) (heap : Allocator) (v : Vector) (index : Nat)
    (e : List Byte)
    (hG : 2 ≤ cfg.VECTOR_GROWTH_FACTOR)
    (hinit : Initialized v) (hinv : Invariant cfg v) (hes : 0 < v.element_size)
    (hidx : index ≤ v.size) (he : e.length = v.element_size)
    (halloc : ∀ n, heap.malloc n ≠ none)
    (hfit : v.size = v.capacity →
      v.size * cfg.VECTOR_GROWTH_FACTOR < SIZE_MOD ∧
      v.size * cfg.VECTOR_GROWTH_FACTOR * v.element_size < SIZE_MOD) :
    ∃ v1, vector_insert cfg heap v index (some e) = some (VECTOR_SUCCESS, v1) ∧
      Initialized v1 ∧ Invariant cfg v1 ∧
      v1.size = v.size + 1 ∧ v1.element_size = v.element_size ∧
      (v.size ≠ v.capacity → v1.capacity = v.capacity) ∧
      (v.size = v.capacity → v1.capacity = max 1 (v.size * cfg.VECTOR_GROWTH_FACTOR)) ∧
      VECTOR_GET_AS v1 index = some e ∧
      (∀ j, j < index → VECTOR_GET_AS v1 j = VECTOR_GET_AS v j) ∧
      (∀ j, index ≤ j → j < v.size → VECTOR_GET_AS v1 (j + 1) = VECTOR_GET_AS v j) := by
  obtain ⟨buf, hd, hlen⟩ := hinit.block
  obtain ⟨v1, buf1, hgrow, hinit1, hd1, hs1, hes1, hlt1, hmin1, hpre1, hcap_ne, hcap_eq⟩ :=
    grow_step cfg heap hG hinit hinv hd halloc hfit
  obtain ⟨buf2, hmr, hlen2, hget2⟩ :=
    _vector_move_right_spec hinit1 hd1 (show index ≤ v1.size by omega)
      (show v1.size < v1.capacity by omega)
  have hinit2 := hinit1.with_data hd1 hlen2
  obtain ⟨buf3, has, hlen3, hget3⟩ :=
    _vector_assign_spec (v := { v1 with data := some buf2 }) hinit2 rfl
      (show index < v1.capacity by omega) (show e.length = v1.element_size by omega)
  have hc1 := hinit1.2.2.1
  have hinit3 : Initialized { v1 with data := some buf3, size := v.size + 1 } := by
    have := hinit2.with_data (v := { v1 with data := some buf2 }) rfl hlen3
    exact ⟨this.1, this.2.1, this.2.2.1, this.2.2.2.1, by show v.size + 1 ≤ v1.capacity; omega⟩
  have hes1' : 0 < v1.element_size := by omega
  simp only [hs1, hes1] at hget2 hget3
  refine ⟨{ v1 with data := some buf3, size := v.size + 1 }, ?_, hinit3, ⟨?_, hmin1⟩, rfl,
    hes1, hcap_ne, hcap_eq, ?_, ?_, ?_⟩
  · unfold vector_insert
    simp only [Option.isNone_some, Bool.false_eq_true, if_false,
      show v.element_size ≠ 0 by omega, show ¬ index > v.size by omega, hgrow, hmr, has]
    rw [if_neg (by decide), if_neg (by decide)]
    simp only [hs1, incw_eq (show v.size + 1 < SIZE_MOD by omega)]
  · show v.size + 1 ≤ v1.capacity
    omega
  · rw [VECTOR_GET_AS_of_lt hinit3 rfl hes1' (show index < v.size + 1 by omega)]
    congr 1
    show (buf3.drop (index * v1.element_size)).take v1.element_size = e
    rw [hes1]
    apply slice_eq_of_getElem? he
    intro k hk
    rw [hget3, if_pos (by omega)]
    congr 1
    omega
  · intro j hj
    rw [VECTOR_GET_AS_of_lt hinit3 rfl hes1' (show j < v.size + 1 by omega),
      VECTOR_GET_AS_of_lt hinit hd hes (show j < v.size by omega)]
    congr 1
    show (buf3.drop (j * v1.element_size)).take v1.element_size = _
    rw [hes1]
    apply slice_congr
    intro k hk
    have h1 := slot_le v.element_size hj
    have h2 := Nat.mul_le_mul_right v.element_size hidx
    rw [hget3, if_neg (by omega), hget2, if_neg (by omega)]
    exact hpre1 _ (by omega)
  · intro j hij hj
    rw [VECTOR_GET_AS_of_lt hinit3 rfl hes1' (show j + 1 < v.size + 1 by omega),
      VECTOR_GET_AS_of_lt hinit hd hes hj]
    congr 1
    show (buf3.drop ((j + 1) * v1.element_size)).take v1.element_size = _
    rw [hes1]
    apply slice_congr
    intro k hk
    have h1 := slot_le v.element_size hj
    have h2 := Nat.mul_le_mul_right v.element_size hij
    have h3 : (j + 1) * v.element_size = j * v.element_size + v.element_size := by
      rw [Nat.add_mul, Nat.one_mul]
    rw [hget3, if_neg (by omega), hget2, if_pos (by omega)]
    rw [show (j + 1) * v.element_size + k - v.element_size = j * v.element_size + k by omega]
    exact hpre1 _ (by omega)

/-- The two normal outcomes of `_vector_reallocate` on an initialized vector whose
target is representable and holds the live elements: success as in
`_vector_reallocate_spec`, or `ERROR` with a null `data` after a failed `malloc`. -/
theorem _vector_reallocate_cases (cfg : Config) (heap : Allocator) {v : Vector}
    {buf : List Byte} (hinit : Initialized v) (hd : v.data = some buf) (nc : Nat)
    (hnc : nc < SIZE_MOD) (hfit : nc * v.element_size < SIZE_MOD)
    (hsz : v.size ≤ max nc cfg.VECTOR_MINIMUM_CAPACITY) :
    (∃ r, _vector_reallocate cfg heap v nc =
        some (VECTOR_SUCCESS,
          { v with data := some r, capacity := reallocated_capacity cfg nc v.capacity }) ∧
      Initialized
        { v with data := some r, capacity := reallocated_capacity cfg nc v.capacity } ∧
      ∀ k, k < v.size * v.element_size → r[k]? = buf[k]?) ∨
    (_vector_reallocate cfg heap v nc = some (VECTOR_ERROR, { v with data := none }) ∧
      ∃ n, heap.malloc n = none) := by
  by_cases hno : nc < cfg.VECTOR_MINIMUM_CAPACITY ∧ v.capacity ≤ cfg.VECTOR_MINIMUM_CAPACITY
  · left
    have hsh : reallocated_capacity cfg nc v.capacity = v.capacity := by
      unfold reallocated_capacity
      rw [if_pos hno]
    rw [hsh, _vector_reallocate_noop cfg heap v _ hno.1 hno.2]
    refine ⟨buf, ?_, ?_, fun _ _ => rfl⟩
    · rw [← hd]
    · rw [← hd]
      exact hinit
  · have hsh : reallocated_capacity cfg nc v.capacity =
        max nc cfg.VECTOR_MINIMUM_CAPACITY := by
      unfold reallocated_capacity
      rw [if_neg hno]
    rw [hsh]
    have hcb := hinit.2.1
    have hc := hinit.2.2.1
    have hlt : nc < cfg.VECTOR_MINIMUM_CAPACITY → cfg.VECTOR_MINIMUM_CAPACITY < v.capacity := by
      intro h4
      by_contra hc3
      exact hno ⟨h4, by omega⟩
    have hce : max nc cfg.VECTOR_MINIMUM_CAPACITY * v.element_size < SIZE_MOD := by
      rcases Nat.lt_or_ge nc cfg.VECTOR_MINIMUM_CAPACITY with h | h
      · rw [Nat.max_eq_right (Nat.le_of_lt h)]
        have := Nat.mul_le_mul_right v.element_size (Nat.le_of_lt (hlt h))
        omega
      · rw [Nat.max_eq_left h]
        exact hfit
    have hcs : max nc cfg.VECTOR_MINIMUM_CAPACITY < SIZE_MOD := by
      rcases Nat.lt_or_ge nc cfg.VECTOR_MINIMUM_CAPACITY with h | h
      · have := hlt h
        omega
      · omega
    cases hm : heap.malloc (max nc cfg.VECTOR_MINIMUM_CAPACITY * v.element_size) with
    | none =>
      right
      refine ⟨_vector_reallocate_fail cfg heap v nc hno ?_, _, hm⟩
      rw [mulw_eq hce]
      exact hm
    | some fresh =>
      left
      obtain ⟨r, hr, hrl, hrg⟩ :=
        _vector_reallocate_ok cfg heap hinit hd nc hno hce hsz (by rw [hm]; exact nofun)
      exact ⟨r, hr, hinit.realloc hrl hce hcs hsz, hrg⟩

/-- `_vector_reallocate` when allocation succeeds, the target is representable and holds
the live elements: it returns `SUCCESS`, the result is initialized with the capacity of
the floor rule, and the live bytes are kept. -/
theorem _vector_reallocate_spec (cfg : Config) (heap : Allocator) {v : Vector}
    {buf : List Byte} (hinit : Initialized v) (hd : v.data = some buf) (nc : Nat)
    (halloc : ∀ n, heap.malloc n ≠ none) (hnc : nc < SIZE_MOD)
    (hfit : nc * v.element_size < SIZE_MOD)
    (hsz : v.size ≤ max nc cfg.VECTOR_MINIMUM_CAPACITY) :
    ∃ r, _vector_reallocate cfg heap v nc =
        some (VECTOR_SUCCESS,
          { v with data := some r, capacity := reallocated_capacity cfg nc v.capacity }) ∧
      Initialized
        { v with data := some r, capacity := reallocated_capacity cfg nc v.capacity } ∧
      ∀ k, k < v.size * v.element_size → r[k]? = buf[k]? := by
  rcases _vector_reallocate_cases cfg heap hinit hd nc hnc hfit hsz with h | ⟨-, n, hn⟩
  · exact h
  · exact absurd hn (halloc n)

/-- `_vector_adjust_capacity` after a removal, when allocation succeeds: the live bytes
are kept and the capacity is `shrunk_capacity`. -/
theorem adjust_after_removal (cfg : Config) (heap : Allocator) {v : Vector}
    {buf : List Byte} (hG : 1 ≤ cfg.VECTOR_GROWTH_FACTOR) (hinit : Initialized v)
    (hd : v.data = some buf) (halloc : ∀ n, heap.malloc n ≠ none)
    (hfit : v.size * cfg.VECTOR_GROWTH_FACTOR < SIZE_MOD ∧
      v.size * cfg.VECTOR_GROWTH_FACTOR * v.element_size < SIZE_MOD) :
    ∃ r, _vector_adjust_capacity cfg heap v =
        some (VECTOR_SUCCESS,
          { v with data := some r, capacity := shrunk_capacity cfg v.size v.capacity }) ∧
      Initialized
        { v with data := some r, capacity := shrunk_capacity cfg v.size v.capacity } ∧
      ∀ k, k < v.size * v.element_size → r[k]? = buf[k]? := by
  obtain ⟨hf1, hf2⟩ := hfit
  have hnc : MAX 1 (mulw v.size cfg.VECTOR_GROWTH_FACTOR) =
      max 1 (v.size * cfg.VECTOR_GROWTH_FACTOR) := by
    rw [MAX_eq_max, mulw_eq hf1]
  have hge : v.size ≤ v.size * cfg.VECTOR_GROWTH_FACTOR :=
    Nat.le_mul_of_pos_right _ (by omega)
  have hmod : 1 < SIZE_MOD := by decide
  have hes := hinit.2.2.2.1
  have hce : max 1 (v.size * cfg.VECTOR_GROWTH_FACTOR) * v.element_size < SIZE_MOD := by
    rcases Nat.le_total 1 (v.size * cfg.VECTOR_GROWTH_FACTOR) with h5 | h5
    · rw [Nat.max_eq_right h5]; exact hf2
    · rw [Nat.max_eq_left h5, Nat.one_mul]; exact hes
  unfold _vector_adjust_capacity shrunk_capacity
  rw [hnc]
  exact _vector_reallocate_spec cfg heap hinit hd _ halloc (by omega) hce (by omega)

/-- What `vector_erase` does in the default build when allocation succeeds, with the
validity and the capacity of the result. -/
theorem vector_erase_core (cfg : Config) (heap : Allocator) (v : Vector) (index : Nat)
    (hns : cfg.VECTOR_NO_SHRINK = false) (hG : 1 ≤ cfg.VECTOR_GROWTH_FACTOR)
    (hinit : Initialized v) (hes : 0 < v.element_size) (hidx : index < v.size)
    (halloc : ∀ n, heap.malloc n ≠ none)
    (hfit : v.size - 1 = v.capacity / 4 →
      (v.size - 1) * cfg.VECTOR_GROWTH_FACTOR < SIZE_MOD ∧
      (v.size - 1) * cfg.VECTOR_GROWTH_FACTOR * v.element_size < SIZE_MOD) :
    ∃ v1, vector_erase cfg heap v index = some (VECTOR_SUCCESS, v1) ∧
      Initialized v1 ∧
      v1.size = v.size - 1 ∧ v1.element_size = v.element_size ∧
      v1.capacity =
        (if v.size - 1 = v.capacity / 4 then shrunk_capacity cfg (v.size - 1) v.capacity
          else v.capacity) ∧
      (∀ j, j < index → VECTOR_GET_AS v1 j = VECTOR_GET_AS v j) ∧
      (∀ j, index ≤ j → j + 1 < v.size → VECTOR_GET_AS v1 j = VECTOR_GET_AS v (j + 1)) := by
  obtain ⟨buf, hd, hlen⟩ := hinit.block
  obtain ⟨buf1, hml, hlen1, hget1⟩ := _vector_move_left_spec hinit hd hidx
  have hsc := hinit.2.2.2.2
  have hc := hinit.2.2.1
  have hdec : decw v.size = v.size - 1 := decw_eq (by omega) (by omega)
  have hinit2 : Initialized { v with data := some buf1, size := v.size - 1 } := by
    have := hinit.with_data hd hlen1
    exact ⟨this.1, this.2.1, this.2.2.1, this.2.2.2.1, by show v.size - 1 ≤ v.capacity; omega⟩
  -- the element facts hold for every block that keeps the live bytes of `buf1`
  have elems : ∀ (w : Vector) (r : List Byte), Initialized w → w.data = some r →
      w.size = v.size - 1 → w.element_size = v.element_size →
      (∀ k, k < (v.size - 1) * v.element_size → r[k]? = buf1[k]?) →
      (∀ j, j < index → VECTOR_GET_AS w j = VECTOR_GET_AS v j) ∧
      (∀ j, index ≤ j → j + 1 < v.size → VECTOR_GET_AS w j = VECTOR_GET_AS v (j + 1)) := by
    intro w r hw hwd hws hwe hwr
    have hwes : 0 < w.element_size := by omega
    have hsm : (v.size - 1) * v.element_size = v.size * v.element_size - v.element_size := by
      rw [Nat.sub_mul, Nat.one_mul]
    constructor
    · intro j hj
      rw [VECTOR_GET_AS_of_lt hw hwd hwes (show j < w.size by omega),
        VECTOR_GET_AS_of_lt hinit hd hes (show j < v.size by omega)]
      refine congrArg some ?_
      rw [hwe]
      apply slice_congr
      intro k hk
      have h1 := slot_le v.element_size hj
      have h2 := slot_le v.element_size hidx
      rw [hwr _ (by omega), hget1, if_neg (by omega)]
    · intro j hij hj
      rw [VECTOR_GET_AS_of_lt hw hwd hwes (show j < w.size by omega),
        VECTOR_GET_AS_of_lt hinit hd hes hj]
      refine congrArg some ?_
      rw [hwe]
      apply slice_congr
      intro k hk
      have h1 := slot_le v.element_size hj
      have h2 := Nat.mul_le_mul_right v.element_size hij
      have h3 : (j + 1) * v.element_size = j * v.element_size + v.element_size := by
        rw [Nat.add_mul, Nat.one_mul]
      rw [hwr _ (by omega), hget1, if_pos (by omega),
        show j * v.element_size + k + v.element_size = (j + 1) * v.element_size + k by omega]
  by_cases hsh : v.size - 1 = v.capacity / 4
  · obtain ⟨r, hr, hinit3, hrg⟩ := adjust_after_removal cfg heap hG hinit2 rfl halloc (hfit hsh)
    obtain ⟨e1, e2⟩ := elems _ r hinit3 rfl rfl rfl hrg
    refine ⟨_, ?_, hinit3, rfl, rfl, ?_, e1, e2⟩
    · unfold vector_erase
      simp only [show v.element_size ≠ 0 by omega, show ¬ index ≥ v.size by omega, if_false,
        hml, hns, hdec, Bool.false_eq_true]
      rw [if_pos hsh]
      simp only [hr]
    · rw [if_pos hsh]
  · obtain ⟨e1, e2⟩ := elems _ buf1 hinit2 rfl rfl rfl (fun _ _ => rfl)
    refine ⟨_, ?_, hinit2, rfl, rfl, ?_, e1, e2⟩
    · unfold vector_erase
      simp only [show v.element_size ≠ 0 by omega, show ¬ index ≥ v.size by omega, if_false,
        hml, hns, hdec, Bool.false_eq_true]
      rw [if_neg hsh]
    · rw [if_neg hsh]

/-- Two initialized vectors with the same element size hold the same element at `j`
when their blocks agree on the bytes up to the end of slot `j`. -/
theorem VECTOR_GET_AS_congr {w v : Vector} {r buf : List Byte} (hw : Initialized w)
    (hv : Initialized v) (hwd : w.data = some r) (hvd : v.data = some buf)
    (hes : w.element_size = v.element_size) {j : Nat} (hjw : j < w.size) (hjv : j < v.size)
    (h : ∀ k, k < j * v.element_size + v.element_size → r[k]? = buf[k]?) :
    VECTOR_GET_AS w j = VECTOR_GET_AS v j := by
  rcases Nat.eq_zero_or_pos v.element_size with h0 | hpos
  · unfold VECTOR_GET_AS vector_get
    simp [hes, h0]
  · rw [VECTOR_GET_AS_of_lt hw hwd (by omega) hjw, VECTOR_GET_AS_of_lt hv hvd hpos hjv]
    refine congrArg some ?_
    rw [hes]
    apply slice_congr
    intro k hk
    exact h _ (by omega)

/-- Under the container invariant the floor rule yields the larger of the target and
the minimum capacity. -/
theorem reallocated_capacity_eq_max (cfg : Config) (nc : Nat) {c : Nat}
    (h : cfg.VECTOR_MINIMUM_CAPACITY ≤ c) :
    reallocated_capacity cfg nc c = max nc cfg.VECTOR_MINIMUM_CAPACITY := by
  unfold reallocated_capacity
  split <;> omega

/-- A vector stays initialized when its size is set to a value within its capacity. -/
theorem Initialized.with_size {v : Vector} (h : Initialized v) {n : Nat}
    (hn : n ≤ v.capacity) : Initialized { v with size := n } :=
  ⟨h.1, h.2.1, h.2.2.1, h.2.2.2.1, hn⟩

/-- The normal outcomes of `vector_resize` on an initialized vector with the container
invariant, when the target block is representable: `SUCCESS` with the new size, the
capacity of the resize rule and the common elements kept, or `ERROR` with a null `data`
after a failed `malloc`. -/
theorem vector_resize_cases (cfg : Config) (heap : Allocator) (v : Vector) (new_size : Nat)
    (hG : 1 ≤ cfg.VECTOR_GROWTH_FACTOR)
    (hT : cfg.capacity_times_SHRINK_THRESHOLD v.capacity ≤ v.capacity)
    (hinit : Initialized v) (hinv : Invariant cfg v)
    (hfit : new_size ≤ cfg.capacity_times_SHRINK_THRESHOLD v.capacity ∨
        v.capacity < new_size →
      new_size * cfg.VECTOR_GROWTH_FACTOR < SIZE_MOD ∧
      new_size * cfg.VECTOR_GROWTH_FACTOR * v.element_size < SIZE_MOD) :
    (∃ v1, vector_resize cfg heap v new_size = some (VECTOR_SUCCESS, v1) ∧
      Initialized v1 ∧ v1.size = new_size ∧ v1.element_size = v.element_size ∧
      v1.capacity =
        (if new_size ≤ cfg.capacity_times_SHRINK_THRESHOLD v.capacity ∨
            v.capacity < new_size
          then max (new_size * cfg.VECTOR_GROWTH_FACTOR) cfg.VECTOR_MINIMUM_CAPACITY
          else v.capacity) ∧
      (∀ j, j < v.size → j < new_size → VECTOR_GET_AS v1 j = VECTOR_GET_AS v j)) ∨
    ((∃ v1, vector_resize cfg heap v new_size = some (VECTOR_ERROR, v1) ∧ v1.data = none) ∧
      ∃ n, heap.malloc n = none) := by
  obtain ⟨buf, hd, hlen⟩ := hinit.block
  have hsc := hinit.2.2.2.2
  have hrc := reallocated_capacity_eq_max cfg (new_size * cfg.VECTOR_GROWTH_FACTOR) hinv.2
  have hge : new_size ≤ new_size * cfg.VECTOR_GROWTH_FACTOR :=
    Nat.le_mul_of_pos_right _ (by omega)
  by_cases h1 : new_size ≤ cfg.capacity_times_SHRINK_THRESHOLD v.capacity
  · obtain ⟨hf1, hf2⟩ := hfit (Or.inl h1)
    have hinit1 : Initialized { v with size := new_size } := hinit.with_size (by omega)
    rcases _vector_reallocate_cases cfg heap hinit1
        (show ({ v with size := new_size } : Vector).data = some buf from hd)
        (new_size * cfg.VECTOR_GROWTH_FACTOR) hf1 hf2
        (show new_size ≤ _ by omega) with ⟨r, hr, hinit2, hrg⟩ | ⟨hr, hn⟩
    · left
      rw [hrc] at hr hinit2
      refine ⟨_, ?_, hinit2, rfl, rfl, ?_, ?_⟩
      · unfold vector_resize
        rw [if_pos h1]
        simp only [mulw_eq hf1, hr]
        rw [if_neg (by decide)]
      · rw [if_pos (Or.inl h1)]
      · intro j hj hjn
        have := slot_le v.element_size hjn
        exact VECTOR_GET_AS_congr hinit2 hinit rfl hd rfl hjn hj
          (fun k hk => hrg k (by show k < new_size * v.element_size; omega))
    · right
      refine ⟨⟨{ v with size := new_size, data := none }, ?_, rfl⟩, hn⟩
      unfold vector_resize
      rw [if_pos h1]
      simp only [mulw_eq hf1, hr]
      rw [if_pos (by decide)]
  · by_cases h2 : v.capacity < new_size
    · obtain ⟨hf1, hf2⟩ := hfit (Or.inr h2)
      rcases _vector_reallocate_cases cfg heap hinit hd
          (new_size * cfg.VECTOR_GROWTH_FACTOR) hf1 hf2 (by omega) with
        ⟨r, hr, hinit2, hrg⟩ | ⟨hr, hn⟩
      · left
        rw [hrc] at hr hinit2
        have hinit3 := hinit2.with_size (n := new_size)
          (show new_size ≤ max (new_size * cfg.VECTOR_GROWTH_FACTOR) _ by omega)
        refine ⟨_, ?_, hinit3, rfl, rfl, ?_, ?_⟩
        · unfold vector_resize
          rw [if_neg h1, if_pos h2]
          simp only [mulw_eq hf1, hr]
          rw [if_neg (by decide)]
        · rw [if_pos (Or.inr h2)]
        · intro j hj hjn
          have := slot_le v.element_size hj
          exact VECTOR_GET_AS_congr hinit3 hinit rfl hd rfl hjn hj
            (fun k hk => hrg k (by omega))
      · right
        refine ⟨⟨{ v with data := none }, ?_, rfl⟩, hn⟩
        unfold vector_resize
        rw [if_neg h1, if_pos h2]
        simp only [mulw_eq hf1, hr]
        rw [if_pos (by decide)]
    · left
      have hinit1 : Initialized { v with size := new_size } := hinit.with_size (by omega)
      refine ⟨_, ?_, hinit1, rfl, rfl, ?_, ?_⟩
      · unfold vector_resize
        rw [if_neg h1, if_neg h2]
      · rw [if_neg (by omega)]
      · intro j hj hjn
        exact VECTOR_GET_AS_congr hinit1 hinit hd hd rfl hjn hj (fun _ _ => rfl)

/-- What `vector_resize` does when allocation succeeds and the target block is
representable, with the validity and the capacity of the result. -/
theorem vector_resize_core (cfg : Config) (heap : Allocator) (v : Vector) (new_size : Nat)
    (hG : 1 ≤ cfg.VECTOR_GROWTH_FACTOR)
    (hT : cfg.capacity_times_SHRINK_THRESHOLD v.capacity ≤ v.capacity)
    (hinit : Initialized v) (hinv : Invariant cfg v)
    (halloc : ∀ n, heap.malloc n ≠ none)
    (hfit : new_size ≤ cfg.capacity_times_SHRINK_THRESHOLD v.capacity ∨
        v.capacity < new_size →
      new_size * cfg.VECTOR_GROWTH_FACTOR < SIZE_MOD ∧
      new_size * cfg.VECTOR_GROWTH_FACTOR * v.element_size < SIZE_MOD) :
    ∃ v1, vector_resize cfg heap v new_size = some (VECTOR_SUCCESS, v1) ∧
      Initialized v1 ∧ v1.size = new_size ∧ v1.element_size = v.element_size ∧
      v1.capacity =
        (if new_size ≤ cfg.capacity_times_SHRINK_THRESHOLD v.capacity ∨
            v.capacity < new_size
          then max (new_size * cfg.VECTOR_GROWTH_FACTOR) cfg.VECTOR_MINIMUM_CAPACITY
          else v.capacity) ∧
      (∀ j, j < v.size → j < new_size → VECTOR_GET_AS v1 j = VECTOR_GET_AS v j) := by
  rcases vector_resize_cases cfg heap v new_size hG hT hinit hinv hfit with h | ⟨-, n, hn⟩
  · exact h
  · exact absurd hn (halloc n)

/-- The fields `_vector_reallocate` leaves on a normal return: `size` and
`element_size` are kept, and the capacity follows the floor rule on `SUCCESS` and is
kept on `ERROR`. -/
theorem _vector_reallocate_fields {cfg : Config} {heap : Allocator} {v v1 : Vector}
    {nc : Nat} {rc : Int} (h : _vector_reallocate cfg heap v nc = some (rc, v1)) :
    v1.size = v.size ∧ v1.element_size = v.element_size ∧
      ((rc = VECTOR_SUCCESS ∧ v1.capacity = reallocated_capacity cfg nc v.capacity) ∨
        (rc = VECTOR_ERROR ∧ v1.capacity = v.capacity)) := by
  unfold _vector_reallocate at h
  by_cases hno : nc < cfg.VECTOR_MINIMUM_CAPACITY ∧ ¬ v.capacity > cfg.VECTOR_MINIMUM_CAPACITY
  · rw [if_pos hno] at h
    simp only [Option.some.injEq, Prod.mk.injEq] at h
    obtain ⟨rfl, rfl⟩ := h
    refine ⟨rfl, rfl, Or.inl ⟨rfl, ?_⟩⟩
    unfold reallocated_capacity
    rw [if_pos ⟨hno.1, by omega⟩]
  · rw [if_neg hno] at h
    have hcap : reallocated_capacity cfg nc v.capacity =
        (if nc < cfg.VECTOR_MINIMUM_CAPACITY then cfg.VECTOR_MINIMUM_CAPACITY else nc) := by
      unfold reallocated_capacity
      rw [if_neg (by omega)]
      split <;> omega
    simp only at h
    cases hm : heap.malloc
        (mulw (if nc < cfg.VECTOR_MINIMUM_CAPACITY then cfg.VECTOR_MINIMUM_CAPACITY else nc)
          v.element_size) with
    | none =>
      simp only [hm, Option.some.injEq, Prod.mk.injEq] at h
      obtain ⟨rfl, rfl⟩ := h
      exact ⟨rfl, rfl, Or.inr ⟨rfl, rfl⟩⟩
    | some fresh =>
      simp only [hm] at h
      split at h
      · cases h
      · split at h
        · cases h
        · simp only [Option.some.injEq, Prod.mk.injEq] at h
          obtain ⟨rfl, rfl⟩ := h
          exact ⟨rfl, rfl, Or.inl ⟨rfl, hcap.symm⟩⟩

/-- `_vector_assign` changes no field but `data`. -/
theorem _vector_assign_fields {v v1 : Vector} {i : Nat} {e : Option (List Byte)}
    (h : _vector_assign v i e = some v1) :
    v1.size = v.size ∧ v1.capacity = v.capacity ∧ v1.element_size = v.element_size := by
  unfold _vector_assign at h
  split at h
  · split at h
    · simp only [Option.some.injEq] at h
      subst h
      exact ⟨rfl, rfl, rfl⟩
    · cases h
  · cases h

/-- `_vector_move_right` changes no field but `data`. -/
theorem _vector_move_right_fields {v v1 : Vector} {i : Nat} {rc : Int}
    (h : _vector_move_right v i = some (rc, v1)) :
    v1.size = v.size ∧ v1.capacity = v.capacity ∧ v1.element_size = v.element_size := by
  unfold _vector_move_right at h
  simp only at h
  split at h
  · split at h
    · simp only [Option.some.injEq, Prod.mk.injEq] at h
      obtain ⟨-, rfl⟩ := h
      exact ⟨rfl, rfl, rfl⟩
    · cases h
  · cases h

/-- `_vector_move_left` changes no field but `data`. -/
theorem _vector_move_left_fields {v v1 : Vector} {i : Nat}
    (h : _vector_move_left v i = some v1) :
    v1.size = v.size ∧ v1.capacity = v.capacity ∧ v1.element_size = v.element_size := by
  unfold _vector_move_left at h
  simp only at h
  split at h
  · split at h
    · simp only [Option.some.injEq] at h
      subst h
      exact ⟨rfl, rfl, rfl⟩
    · cases h
  · cases h

/-- The fields after the growth step of `vector_push_back` and `vector_insert`. -/
theorem grow_fields {cfg : Config} {heap : Allocator} {v v1 : Vector} {rc : Int}
    (h : (if _vector_should_grow v then _vector_adjust_capacity cfg heap v
      else some (VECTOR_SUCCESS, v)) = some (rc, v1)) :
    v1.size = v.size ∧ v1.element_size = v.element_size ∧
      ((rc = VECTOR_SUCCESS ∧ v1.capacity =
          (if v.size = v.capacity then
            reallocated_capacity cfg (MAX 1 (mulw v.size cfg.VECTOR_GROWTH_FACTOR)) v.capacity
          else v.capacity)) ∨
        rc = VECTOR_ERROR) := by
  by_cases hfull : v.size = v.capacity
  · have hg : _vector_should_grow v = true := by
      unfold _vector_should_grow
      simpa using hfull
    rw [hg, if_pos rfl] at h
    unfold _vector_adjust_capacity at h
    obtain ⟨h1, h2, h3⟩ := _vector_reallocate_fields h
    refine ⟨h1, h2, ?_⟩
    rcases h3 with ⟨h4, h5⟩ | ⟨h4, -⟩
    · left
      rw [if_pos hfull]
      exact ⟨h4, h5⟩
    · exact Or.inr h4
  · have hg : _vector_should_grow v = false := by
      unfold _vector_should_grow
      simpa using hfull
    rw [hg] at h
    simp only [Bool.false_eq_true, if_false, Option.some.injEq, Prod.mk.injEq] at h
    obtain ⟨rfl, rfl⟩ := h
    refine ⟨rfl, rfl, Or.inl ⟨rfl, ?_⟩⟩
    rw [if_neg hfull]

/-- The fields after a successful `vector_push_back`. -/
theorem vector_push_back_fields {cfg : Config} {heap : Allocator} {v v1 : Vector}
    {e : Option (List Byte)}
    (h : vector_push_back cfg heap v e = some (VECTOR_SUCCESS, v1)) :
    v1.size = incw v.size ∧ v1.element_size = v.element_size ∧
      v1.capacity =
        (if v.size = v.capacity then
          reallocated_capacity cfg (MAX 1 (mulw v.size cfg.VECTOR_GROWTH_FACTOR)) v.capacity
        else v.capacity) := by
  unfold vector_push_back at h
  simp only at h
  split at h
  · cases h
  · rename_i rc w hgrow
    obtain ⟨g1, g2, g3⟩ := grow_fields hgrow
    split at h
    · simp only [Option.some.injEq, Prod.mk.injEq] at h
      exact absurd h.1 (by decide)
    · rename_i hrc
      split at h
      · cases h
      · rename_i w2 has
        obtain ⟨a1, a2, a3⟩ := _vector_assign_fields has
        simp only [Option.some.injEq, Prod.mk.injEq, true_and] at h
        subst h
        rcases g3 with ⟨-, g4⟩ | g4
        · exact ⟨by show incw w2.size = _; rw [a1, g1], by show w2.element_size = _; omega,
            by show w2.capacity = _; omega⟩
        · exact absurd g4 hrc

/-- The fields after a successful `vector_insert`, and the guard that let it through. -/
theorem vector_insert_fields {cfg : Config} {heap : Allocator} {v v1 : Vector} {index : Nat}
    {e : Option (List Byte)}
    (h : vector_insert cfg heap v index e = some (VECTOR_SUCCESS, v1)) :
    index ≤ v.size ∧
    v1.size = incw v.size ∧ v1.element_size = v.element_size ∧
      v1.capacity =
        (if v.size = v.capacity then
          reallocated_capacity cfg (MAX 1 (mulw v.size cfg.VECTOR_GROWTH_FACTOR)) v.capacity
        else v.capacity) := by
  unfold vector_insert at h
  have hne : (VECTOR_ERROR, v) ≠ (VECTOR_SUCCESS, v1) := by
    intro hc
    have h1 : VECTOR_ERROR = VECTOR_SUCCESS := congrArg Prod.fst hc
    exact absurd h1 (by decide)
  split at h
  · exact absurd (Option.some.inj h) hne
  · split at h
    · exact absurd (Option.some.inj h) hne
    · split at h
      · exact absurd (Option.some.inj h) hne
      · rename_i hidx
        simp only at h
        split at h
        · cases h
        · rename_i rc w hgrow
          obtain ⟨g1, g2, g3⟩ := grow_fields hgrow
          split at h
          · simp only [Option.some.injEq, Prod.mk.injEq] at h
            exact absurd h.1 (by decide)
          · rename_i hrc
            split at h
            · cases h
            · rename_i rc1 w1 hmr
              obtain ⟨m1, m2, m3⟩ := _vector_move_right_fields hmr
              split at h
              · simp only [Option.some.injEq, Prod.mk.injEq] at h
                exact absurd h.1 (by decide)
              · split at h
                · cases h
                · rename_i w2 has
                  obtain ⟨a1, a2, a3⟩ := _vector_assign_fields has
                  simp only [Option.some.injEq, Prod.mk.injEq, true_and] at h
                  subst h
                  rcases g3 with ⟨-, g4⟩ | g4
                  · exact ⟨by omega, by show incw w2.size = _; rw [a1, m1, g1],
                      by show w2.element_size = _; omega, by show w2.capacity = _; omega⟩
                  · exact absurd g4 hrc

/-- The fields after a successful `vector_assign`. -/
theorem vector_assign_fields {v v1 : Vector} {index : Nat} {e : Option (List Byte)}
    (h : vector_assign v index e = some (VECTOR_SUCCESS, v1)) :
    v1.size = v.size ∧ v1.capacity = v.capacity ∧ v1.element_size = v.element_size := by
  unfold vector_assign at h
  have hne : (VECTOR_ERROR, v) ≠ (VECTOR_SUCCESS, v1) := by
    intro hc
    have h1 : VECTOR_ERROR = VECTOR_SUCCESS := congrArg Prod.fst hc
    exact absurd h1 (by decide)
  split at h
  · exact absurd (Option.some.inj h) hne
  · split at h
    · exact absurd (Option.some.inj h) hne
    · split at h
      · exact absurd (Option.some.inj h) hne
      · split at h
        · cases h
        · rename_i w has
          simp only [Option.some.injEq, Prod.mk.injEq, true_and] at h
          subst h
          exact _vector_assign_fields has

/-- The fields `_vector_adjust_capacity` leaves whatever its status: the capacity is
kept or set by the floor rule. -/
theorem _vector_adjust_capacity_fields {cfg : Config} {heap : Allocator} {v v1 : Vector}
    {rc : Int} (h : _vector_adjust_capacity cfg heap v = some (rc, v1)) :
    v1.size = v.size ∧ v1.element_size = v.element_size ∧
      (v1.capacity = v.capacity ∨
        v1.capacity =
          reallocated_capacity cfg (MAX 1 (mulw v.size cfg.VECTOR_GROWTH_FACTOR))
            v.capacity) := by
  unfold _vector_adjust_capacity at h
  obtain ⟨h1, h2, h3⟩ := _vector_reallocate_fields h
  refine ⟨h1, h2, ?_⟩
  rcases h3 with ⟨-, h5⟩ | ⟨-, h5⟩
  · exact Or.inr h5
  · exact Or.inl h5

/-- The fields after a successful `vector_pop_back`. -/
theorem vector_pop_back_fields {cfg : Config} {heap : Allocator} {v v1 : Vector}
    (h : vector_pop_back cfg heap v = some (VECTOR_SUCCESS, v1)) :
    v1.size = decw v.size ∧ v1.element_size = v.element_size ∧
      (v1.capacity = v.capacity ∨
        (decw v.size = cfg.capacity_times_SHRINK_THRESHOLD v.capacity ∧
          v1.capacity =
            reallocated_capacity cfg (MAX 1 (mulw (decw v.size) cfg.VECTOR_GROWTH_FACTOR))
              v.capacity)) := by
  unfold vector_pop_back at h
  split at h
  · simp only [Option.some.injEq, Prod.mk.injEq] at h
    exact absurd h.1 (by decide)
  · simp only at h
    split at h
    · simp only [Option.some.injEq, Prod.mk.injEq, true_and] at h
      subst h
      exact ⟨rfl, rfl, Or.inl rfl⟩
    · split at h
      · rename_i hsh
        split at h
        · cases h
        · rename_i rc w hadj
          obtain ⟨a1, a2, a3⟩ := _vector_adjust_capacity_fields hadj
          simp only [Option.some.injEq, Prod.mk.injEq, true_and] at h
          subst h
          refine ⟨a1, a2, ?_⟩
          rcases a3 with a4 | a4
          · exact Or.inl a4
          · right
            refine ⟨?_, a4⟩
            unfold _vector_should_shrink at hsh
            simpa using hsh
      · simp only [Option.some.injEq, Prod.mk.injEq, true_and] at h
        subst h
        exact ⟨rfl, rfl, Or.inl rfl⟩

/-- The fields after a successful `vector_erase`, and the guard that let it through. -/
theorem vector_erase_fields {cfg : Config} {heap : Allocator} {v v1 : Vector} {index : Nat}
    (h : vector_erase cfg heap v index = some (VECTOR_SUCCESS, v1)) :
    index < v.size ∧ v1.element_size = v.element_size ∧
      ((v1.size = v.size ∧ v1.capacity = v.capacity) ∨
        (v1.size = decw v.size ∧
          (v1.capacity = v.capacity ∨
            (decw v.size = v.capacity / 4 ∧
              v1.capacity =
                reallocated_capacity cfg
                  (MAX 1 (mulw (decw v.size) cfg.VECTOR_GROWTH_FACTOR)) v.capacity)))) := by
  unfold vector_erase at h
  split at h
  · simp only [Option.some.injEq, Prod.mk.injEq] at h
    exact absurd h.1 (by decide)
  · split at h
    · simp only [Option.some.injEq, Prod.mk.injEq] at h
      exact absurd h.1 (by decide)
    · rename_i hidx
      split at h
      · cases h
      · rename_i w hml
        obtain ⟨m1, m2, m3⟩ := _vector_move_left_fields hml
        split at h
        · simp only [Option.some.injEq, Prod.mk.injEq, true_and] at h
          subst h
          exact ⟨by omega, m3, Or.inl ⟨m1, m2⟩⟩
        · simp only at h
          split at h
          · rename_i hsh
            split at h
            · cases h
            · rename_i rc w2 hadj
              obtain ⟨a1, a2, a3⟩ := _vector_adjust_capacity_fields hadj
              simp only [Option.some.injEq, Prod.mk.injEq, true_and] at h
              subst h
              simp only at a1 a2 a3
              refine ⟨by omega, by omega, Or.inr ⟨by rw [a1, m1], ?_⟩⟩
              rcases a3 with a4 | a4
              · exact Or.inl (by omega)
              · right
                rw [m1, m2] at a4
                exact ⟨by rw [← m1, ← m2]; exact hsh, a4⟩
          · simp only [Option.some.injEq, Prod.mk.injEq, true_and] at h
            subst h
            exact ⟨by omega, m3, Or.inr ⟨by show decw w.size = _; rw [m1], Or.inl m2⟩⟩

/-- The fields after a successful `vector_resize`. -/
theorem vector_resize_fields {cfg : Config} {heap : Allocator} {v v1 : Vector}
    {new_size : Nat} (h : vector_resize cfg heap v new_size = some (VECTOR_SUCCESS, v1)) :
    v1.size = new_size ∧ v1.element_size = v.element_size ∧
      v1.capacity =
        (if new_size ≤ cfg.capacity_times_SHRINK_THRESHOLD v.capacity ∨
            v.capacity < new_size then
          reallocated_capacity cfg (mulw new_size cfg.VECTOR_GROWTH_FACTOR) v.capacity
        else v.capacity) := by
  unfold vector_resize at h
  split at h
  · rename_i h1
    simp only at h
    split at h
    · cases h
    · rename_i rc w hre
      obtain ⟨r1, r2, r3⟩ := _vector_reallocate_fields hre
      split at h
      · simp only [Option.some.injEq, Prod.mk.injEq] at h
        exact absurd h.1 (by decide)
      · rename_i hrc
        simp only [Option.some.injEq, Prod.mk.injEq, true_and] at h
        subst h
        rcases r3 with ⟨-, r4⟩ | ⟨r4, -⟩
        · exact ⟨rfl, r2, by rw [if_pos (Or.inl h1)]; exact r4⟩
        · exact absurd r4 hrc
  · rename_i h1
    split at h
    · rename_i h2
      split at h
      · cases h
      · rename_i rc w hre
        obtain ⟨r1, r2, r3⟩ := _vector_reallocate_fields hre
        split at h
        · simp only [Option.some.injEq, Prod.mk.injEq] at h
          exact absurd h.1 (by decide)
        · rename_i hrc
          simp only [Option.some.injEq, Prod.mk.injEq, true_and] at h
          subst h
          rcases r3 with ⟨-, r4⟩ | ⟨r4, -⟩
          · exact ⟨rfl, r2, by rw [if_pos (Or.inr h2)]; exact r4⟩
          · exact absurd r4 hrc
    · rename_i h2
      simp only [Option.some.injEq, Prod.mk.injEq, true_and] at h
      subst h
      exact ⟨rfl, rfl, by rw [if_neg (by omega)]⟩

/-- The fields after a successful `vector_reserve`. -/
theorem vector_reserve_fields {cfg : Config} {heap : Allocator} {v v1 : Vector}
    {minimum_capacity : Nat}
    (h : vector_reserve cfg heap v minimum_capacity = some (VECTOR_SUCCESS, v1)) :
    v1.size = v.size ∧ v1.element_size = v.element_size ∧
      v1.capacity =
        (if v.capacity < minimum_capacity then
          reallocated_capacity cfg minimum_capacity v.capacity
        else v.capacity) := by
  unfold vector_reserve at h
  split at h
  · rename_i h1
    split at h
    · cases h
    · rename_i rc w hre
      obtain ⟨r1, r2, r3⟩ := _vector_reallocate_fields hre
      split at h
      · simp only [Option.some.injEq, Prod.mk.injEq] at h
        exact absurd h.1 (by decide)
      · rename_i hrc
        simp only [Option.some.injEq, Prod.mk.injEq, true_and] at h
        subst h
        rcases r3 with ⟨-, r4⟩ | ⟨r4, -⟩
        · exact ⟨r1, r2, by rw [if_pos h1]; exact r4⟩
        · exact absurd r4 hrc
  · rename_i h1
    simp only [Option.some.injEq, Prod.mk.injEq, true_and] at h
    subst h
    exact ⟨rfl, rfl, by rw [if_neg h1]⟩

/-- The fields after a successful `vector_shrink_to_fit`. -/
theorem vector_shrink_to_fit_fields {cfg : Config} {heap : Allocator} {v v1 : Vector}
    (h : vector_shrink_to_fit cfg heap v = some (VECTOR_SUCCESS, v1)) :
    v1.size = v.size ∧ v1.element_size = v.element_size ∧
      v1.capacity = reallocated_capacity cfg v.size v.capacity := by
  unfold vector_shrink_to_fit at h
  obtain ⟨r1, r2, r3⟩ := _vector_reallocate_fields h
  rcases r3 with ⟨-, r4⟩ | ⟨r4, -⟩
  · exact ⟨r1, r2, r4⟩
  · exact absurd r4 (by decide)

/-- The fields of the destination after a successful `vector_copy`. -/
theorem vector_copy_fields {cfg : Config} {heap : Allocator} {destination source v1 : Vector}
    (h : vector_copy cfg heap destination source = some (VECTOR_SUCCESS, v1)) :
    v1.size = source.size ∧ v1.element_size = source.element_size ∧
      v1.capacity =
        (if source.size = 0 then cfg.VECTOR_MINIMUM_CAPACITY else mulw source.size 2) := by
  unfold vector_copy at h
  split at h
  · simp only [Option.some.injEq, Prod.mk.injEq] at h
    exact absurd h.1 (by decide)
  · split at h
    · simp only [Option.some.injEq, Prod.mk.injEq] at h
      exact absurd h.1 (by decide)
    · simp only at h
      split at h
      · simp only [Option.some.injEq, Prod.mk.injEq] at h
        exact absurd h.1 (by decide)
      · split at h
        · cases h
        · split at h
          · cases h
          · simp only [Option.some.injEq, Prod.mk.injEq, true_and] at h
            subst h
            exact ⟨rfl, rfl, rfl⟩

/-- The floor rule keeps the invariant: the new capacity holds every size the target
holds, is at least the minimum capacity and is a `size_t` value. -/
theorem reallocated_capacity_bounds (cfg : Config)
    (hMIN : cfg.VECTOR_MINIMUM_CAPACITY ≤ 2) {nc c n : Nat}
    (hc : cfg.VECTOR_MINIMUM_CAPACITY ≤ c) (hn : n ≤ nc) (hnc : nc < SIZE_MOD) :
    n ≤ reallocated_capacity cfg nc c ∧
      cfg.VECTOR_MINIMUM_CAPACITY ≤ reallocated_capacity cfg nc c ∧
      reallocated_capacity cfg nc c < SIZE_MOD := by
  rw [reallocated_capacity_eq_max cfg nc hc]
  have : 2 < SIZE_MOD := by decide
  omega

/-- The growth target exceeds the size when the product does not wrap. -/
theorem growth_target_bounds (cfg : Config) (hG : 2 ≤ cfg.VECTOR_GROWTH_FACTOR) {n : Nat}
    (hfit : n * cfg.VECTOR_GROWTH_FACTOR < SIZE_MOD) :
    n + 1 ≤ MAX 1 (mulw n cfg.VECTOR_GROWTH_FACTOR) ∧
      MAX 1 (mulw n cfg.VECTOR_GROWTH_FACTOR) < SIZE_MOD := by
  rw [MAX_eq_max, mulw_eq hfit]
  have h2 : 2 * n ≤ n * cfg.VECTOR_GROWTH_FACTOR := by
    rw [Nat.mul_comm 2]
    exact Nat.mul_le_mul_left _ hG
  have : 1 < SIZE_MOD := by decide
  omega

/-- The shrink target holds the size when the product does not wrap. -/
theorem shrink_target_bounds (cfg : Config) (hG : 1 ≤ cfg.VECTOR_GROWTH_FACTOR) {n : Nat}
    (hfit : n * cfg.VECTOR_GROWTH_FACTOR < SIZE_MOD) :
    n ≤ MAX 1 (mulw n cfg.VECTOR_GROWTH_FACTOR) ∧
      MAX 1 (mulw n cfg.VECTOR_GROWTH_FACTOR) < SIZE_MOD := by
  rw [MAX_eq_max, mulw_eq hfit]
  have h2 : n ≤ n * cfg.VECTOR_GROWTH_FACTOR := Nat.le_mul_of_pos_right _ (by omega)
  have : 1 < SIZE_MOD := by decide
  omega

/-- Every reachable state satisfies the invariant and has a `size_t` capacity. -/
theorem Reachable.bounds {cfg : Config} (hG : 2 ≤ cfg.VECTOR_GROWTH_FACTOR)
    (hMIN : cfg.VECTOR_MINIMUM_CAPACITY ≤ 2) {v : Vector} (h : Reachable cfg v) :
    Invariant cfg v ∧ v.capacity < SIZE_MOD := by
  have hmod : 2 < SIZE_MOD := by decide
  -- the step shared by `push_back`, `push_front` and `insert`
  have grow : ∀ (v v1 : Vector), (Invariant cfg v ∧ v.capacity < SIZE_MOD) →
      (v.size = v.capacity → v.size * cfg.VECTOR_GROWTH_FACTOR < SIZE_MOD) →
      v1.size = incw v.size →
      v1.capacity =
        (if v.size = v.capacity then
          reallocated_capacity cfg (MAX 1 (mulw v.size cfg.VECTOR_GROWTH_FACTOR)) v.capacity
        else v.capacity) →
      Invariant cfg v1 ∧ v1.capacity < SIZE_MOD := by
    intro v v1 ⟨⟨i1, i2⟩, i3⟩ hfit hs hc
    unfold Invariant
    by_cases hfull : v.size = v.capacity
    · rw [if_pos hfull] at hc
      obtain ⟨g1, g2⟩ := growth_target_bounds cfg hG (hfit hfull)
      obtain ⟨b1, b2, b3⟩ := reallocated_capacity_bounds cfg hMIN i2 g1 g2
      rw [hs, hc, incw_eq (by omega)]
      exact ⟨⟨b1, b2⟩, b3⟩
    · rw [if_neg hfull] at hc
      rw [hs, hc, incw_eq (by omega)]
      exact ⟨⟨by omega, i2⟩, i3⟩
  -- the step shared by `pop_back`, `pop_front` and `erase`
  have shrink : ∀ (v v1 : Vector) (t : Nat), (Invariant cfg v ∧ v.capacity < SIZE_MOD) →
      0 < v.size →
      (v.size - 1 = t → (v.size - 1) * cfg.VECTOR_GROWTH_FACTOR < SIZE_MOD) →
      v1.size = decw v.size →
      (v1.capacity = v.capacity ∨
        (decw v.size = t ∧
          v1.capacity =
            reallocated_capacity cfg (MAX 1 (mulw (decw v.size) cfg.VECTOR_GROWTH_FACTOR))
              v.capacity)) →
      Invariant cfg v1 ∧ v1.capacity < SIZE_MOD := by
    intro v v1 t ⟨⟨i1, i2⟩, i3⟩ hpos hfit hs hc
    unfold Invariant
    have hd : decw v.size = v.size - 1 := decw_eq hpos (by omega)
    rw [hd] at hs hc
    rcases hc with hc | ⟨ht, hc⟩
    · rw [hs, hc]
      exact ⟨⟨by omega, i2⟩, i3⟩
    · obtain ⟨g1, g2⟩ := shrink_target_bounds cfg (by omega) (hfit ht)
      obtain ⟨b1, b2, b3⟩ := reallocated_capacity_bounds cfg hMIN i2 g1 g2
      rw [hs, hc]
      exact ⟨⟨b1, b2⟩, b3⟩
  induction h with
  | setup heap capacity element_size hc _ =>
    unfold Invariant vector_setup
    simp only [MAX_eq_max]
    omega
  | copy heap destination source v1 _ hfit hcopy ih =>
    obtain ⟨c1, -, c3⟩ := vector_copy_fields hcopy
    unfold Invariant
    rw [c1, c3]
    split
    · omega
    · rw [mulw_eq hfit]
      omega
  | push_back heap v e v1 _ hfit hop ih =>
    obtain ⟨f1, -, f3⟩ := vector_push_back_fields hop
    exact grow v v1 ih hfit f1 f3
  | push_front heap v e v1 _ hfit hop ih =>
    obtain ⟨-, f1, -, f3⟩ := vector_insert_fields hop
    exact grow v v1 ih hfit f1 f3
  | insert heap v index e v1 _ hfit hop ih =>
    obtain ⟨-, f1, -, f3⟩ := vector_insert_fields hop
    exact grow v v1 ih hfit f1 f3
  | assign v index e v1 _ hop ih =>
    obtain ⟨f1, f2, -⟩ := vector_assign_fields hop
    unfold Invariant at ih ⊢
    rw [f1, f2]
    exact ih
  | pop_back heap v v1 _ hpos hfit hop ih =>
    obtain ⟨f1, -, f3⟩ := vector_pop_back_fields hop
    exact shrink v v1 _ ih hpos hfit f1 f3
  | pop_front heap v v1 _ hfit hop ih =>
    obtain ⟨f0, -, f3⟩ := vector_erase_fields hop
    rcases f3 with ⟨f1, f2⟩ | ⟨f1, f2⟩
    · unfold Invariant at ih ⊢
      rw [f1, f2]
      exact ih
    · exact shrink v v1 _ ih (by omega) hfit f1 f2
  | erase heap v index v1 _ hfit hop ih =>
    obtain ⟨f0, -, f3⟩ := vector_erase_fields hop
    rcases f3 with ⟨f1, f2⟩ | ⟨f1, f2⟩
    · unfold Invariant at ih ⊢
      rw [f1, f2]
      exact ih
    · exact shrink v v1 _ ih (by omega) hfit f1 f2
  | clear heap v v1 _ hop ih =>
    obtain ⟨f1, -, f3⟩ := vector_resize_fields hop
    rw [if_pos (Or.inl (Nat.zero_le _))] at f3
    have h0 : mulw 0 cfg.VECTOR_GROWTH_FACTOR = 0 := by
      unfold mulw
      rw [Nat.zero_mul]
      rfl
    rw [h0] at f3
    obtain ⟨b1, b2, b3⟩ :=
      reallocated_capacity_bounds cfg hMIN ih.1.2 (Nat.le_refl 0) (by omega)
    unfold Invariant
    rw [f1, f3]
    exact ⟨⟨b1, b2⟩, b3⟩
  | resize heap v new_size v1 _ hfit hop ih =>
    obtain ⟨f1, -, f3⟩ := vector_resize_fields hop
    unfold Invariant
    by_cases hc : new_size ≤ cfg.capacity_times_SHRINK_THRESHOLD v.capacity ∨
        v.capacity < new_size
    · rw [if_pos hc, mulw_eq (hfit hc)] at f3
      have hge : new_size ≤ new_size * cfg.VECTOR_GROWTH_FACTOR :=
        Nat.le_mul_of_pos_right _ (by omega)
      obtain ⟨b1, b2, b3⟩ := reallocated_capacity_bounds cfg hMIN ih.1.2 hge (hfit hc)
      rw [f1, f3]
      exact ⟨⟨b1, b2⟩, b3⟩
    · rw [if_neg hc] at f3
      rw [f1, f3]
      exact ⟨⟨by omega, ih.1.2⟩, ih.2⟩
  | reserve heap v minimum_capacity v1 _ hlt hop ih =>
    obtain ⟨f1, -, f3⟩ := vector_reserve_fields hop
    unfold Invariant
    by_cases hc : v.capacity < minimum_capacity
    · rw [if_pos hc] at f3
      obtain ⟨b1, b2, b3⟩ :=
        reallocated_capacity_bounds cfg hMIN ih.1.2 (Nat.le_refl minimum_capacity) hlt
      have := ih.1.1
      rw [f1, f3]
      exact ⟨⟨by omega, b2⟩, b3⟩
    · rw [if_neg hc] at f3
      rw [f1, f3]
      exact ih
  | shrink_to_fit heap v v1 _ hop ih =>
    obtain ⟨f1, -, f3⟩ := vector_shrink_to_fit_fields hop
    have := ih.1.1
    obtain ⟨b1, b2, b3⟩ :=
      reallocated_capacity_bounds cfg hMIN ih.1.2 (Nat.le_refl v.size) (by omega)
    unfold Invariant
    rw [f1, f3]
    exact ⟨⟨b1, b2⟩, b3⟩
  | swap_destination destination source _ _ hop ihd ihs =>
    unfold vector_swap at hop ⊢
    split
    · rename_i h1
      rw [if_pos h1] at hop
      exact absurd (show VECTOR_ERROR = VECTOR_SUCCESS from hop) (by decide)
    · split
      · rename_i h1 h2
        rw [if_neg h1, if_pos h2] at hop
        exact absurd (show VECTOR_ERROR = VECTOR_SUCCESS from hop) (by decide)
      · exact ihs
  | swap_source destination source _ _ hop ihd ihs =>
    unfold vector_swap at hop ⊢
    split
    · rename_i h1
      rw [if_pos h1] at hop
      exact absurd (show VECTOR_ERROR = VECTOR_SUCCESS from hop) (by decide)
    · split
      · rename_i h1 h2
        rw [if_neg h1, if_pos h2] at hop
        exact absurd (show VECTOR_ERROR = VECTOR_SUCCESS from hop) (by decide)
      · exact ihd

/-- What a successful `vector_copy` does, with the validity of a non-empty copy. -/
theorem vector_copy_core (cfg : Config) (heap : Allocator) (destination source : Vector)
    (hd : destination.data = none) (hinit : Initialized source)
    (halloc : ∀ m, heap.malloc m ≠ none)
    (hfit : source.size ≠ 0 →
      source.size * 2 < SIZE_MOD ∧ source.size * 2 * source.element_size < SIZE_MOD) :
    ∃ r, vector_copy cfg heap destination source =
        some (VECTOR_SUCCESS,
          ⟨source.size,
            if source.size = 0 then cfg.VECTOR_MINIMUM_CAPACITY else source.size * 2,
            source.element_size, some r⟩) ∧
      ∀ j, VECTOR_GET_AS
          ⟨source.size,
            if source.size = 0 then cfg.VECTOR_MINIMUM_CAPACITY else source.size * 2,
            source.element_size, some r⟩ j = VECTOR_GET_AS source j := by
  obtain ⟨buf, hsd, hlen⟩ := hinit.block
  obtain ⟨-, hcb, hc, hes, hsc⟩ := hinit
  have hinit : Initialized source := ⟨by rw [hsd]; simp [hlen], hcb, hc, hes, hsc⟩
  have h1 := Nat.mul_le_mul_right source.element_size hsc
  have hbs : vector_byte_size source = source.size * source.element_size := by
    unfold vector_byte_size
    exact mulw_eq (by omega)
  have hcap : (if source.size = 0 then cfg.VECTOR_MINIMUM_CAPACITY else mulw source.size 2) =
      (if source.size = 0 then cfg.VECTOR_MINIMUM_CAPACITY else source.size * 2) := by
    split
    · rfl
    · rename_i h0
      exact mulw_eq (hfit h0).1
  cases hm : heap.malloc
      (mulw (if source.size = 0 then cfg.VECTOR_MINIMUM_CAPACITY else source.size * 2)
        source.element_size) with
  | none => exact absurd hm (halloc _)
  | some fresh =>
    have hfl := heap.malloc_length _ _ hm
    have hroom : source.size * source.element_size ≤ fresh.length := by
      rw [hfl]
      by_cases h0 : source.size = 0
      · rw [h0, Nat.zero_mul]
        exact Nat.zero_le _
      · rw [if_neg h0, mulw_eq (hfit h0).2]
        have := Nat.mul_le_mul_right source.element_size
          (show source.size ≤ source.size * 2 by omega)
        exact this
    obtain ⟨r, hr⟩ := memcpy_defined fresh 0 buf (source.size * source.element_size)
      (by omega) (by omega)
    refine ⟨r, ?_, ?_⟩
    · unfold vector_copy vector_is_initialized
      simp only [hd, hsd, Option.isSome_none, Option.isSome_some, Bool.false_eq_true,
        if_false, Bool.not_true, hcap, hm, hbs, hr]
    · intro j
      by_cases hj : j < source.size
      · have h0 : source.size ≠ 0 := by omega
        obtain ⟨hf1, hf2⟩ := hfit h0
        have hinit1 : Initialized
            ⟨source.size,
              if source.size = 0 then cfg.VECTOR_MINIMUM_CAPACITY else source.size * 2,
              source.element_size, some r⟩ := by
          refine ⟨?_, ?_, ?_, hes, ?_⟩
          · simp only [Option.map_some', Option.some.injEq]
            rw [memcpy_length hr, hfl, mulw_eq (by rw [if_neg h0]; exact hf2)]
          · show (if source.size = 0 then _ else _) * _ < _
            rw [if_neg h0]
            exact hf2
          · show (if source.size = 0 then _ else _) < _
            rw [if_neg h0]
            exact hf1
          · show source.size ≤ (if source.size = 0 then _ else _)
            rw [if_neg h0]
            omega
        have := slot_le source.element_size hj
        refine VECTOR_GET_AS_congr hinit1 hinit rfl hsd rfl hj hj (fun k hk => ?_)
        rw [memcpy_getElem? hr, if_pos (by omega)]
        rfl
      · rw [VECTOR_GET_AS_of_ge source (show source.size ≤ j by omega)]
        exact VECTOR_GET_AS_of_ge _ (show source.size ≤ j by omega)

/-- On an initialized vector with non-empty elements the cursor at an index up to `size`
points `index * element_size` bytes into the block. -/
theorem vector_iterator_eq {v : Vector} (hinit : Initialized v) (hes : 0 < v.element_size)
    {k : Nat} (hk : k ≤ v.size) :
    vector_iterator v k = ⟨some (k * v.element_size), v.element_size⟩ := by
  have hsc := hinit.2.2.2.2
  unfold vector_iterator
  rw [if_neg (by omega), if_neg (by omega), offset_eq hinit (by omega)]

/-- `k` increments move a cursor `k * element_size` bytes up. -/
theorem iterate_iterator_increment (off es k : Nat) :
    Nat.iterate iterator_increment k ⟨some off, es⟩ = ⟨some (off + k * es), es⟩ := by
  induction k generalizing off with
  | zero => simp
  | succ n ih =>
    rw [Function.iterate_succ_apply]
    have h1 : iterator_increment ⟨some off, es⟩ = ⟨some (off + es), es⟩ := rfl
    rw [h1, ih, Nat.add_mul, Nat.one_mul, Nat.add_assoc, Nat.add_comm es]

/-- The walk from the cursor at `k` to the end visits the slots `k, k + 1, ..., size - 1`
in this order, whenever the fuel covers the `size - k` steps. -/
theorem iterator_walk_from {v : Vector} (hinit : Initialized v) (hes : 0 < v.element_size)
    (n : Nat) :
    ∀ k fuel, k + n = v.size → n ≤ fuel →
      iterator_walk fuel (vector_iterator v k) (vector_end v) =
        some ((List.range' k n).map (vector_get v)) := by
  have hend : vector_end v = ⟨some (v.size * v.element_size), v.element_size⟩ := by
    unfold vector_end
    exact vector_iterator_eq hinit hes (Nat.le_refl _)
  induction n with
  | zero =>
    intro k fuel hk _
    have hkv : k = v.size := by omega
    rw [hkv, hend, vector_iterator_eq hinit hes (Nat.le_refl _)]
    cases fuel <;> simp [iterator_walk, iterator_equals]
  | succ n ih =>
    intro k fuel hk hfuel
    obtain ⟨f, rfl⟩ : ∃ f, fuel = f + 1 := ⟨fuel - 1, by omega⟩
    have hlt : k < v.size := by omega
    have hne : iterator_equals (vector_iterator v k) (vector_end v) = false := by
      rw [hend, vector_iterator_eq hinit hes (Nat.le_of_lt hlt)]
      unfold iterator_equals
      have := slot_le v.element_size hlt
      simp only [beq_eq_false_iff_ne, ne_eq, Option.some.injEq]
      omega
    have hstep : iterator_increment (vector_iterator v k) = vector_iterator v (k + 1) := by
      rw [vector_iterator_eq hinit hes (Nat.le_of_lt hlt),
        vector_iterator_eq hinit hes (show k + 1 ≤ v.size by omega)]
      show (⟨some (k * v.element_size + v.element_size), v.element_size⟩ : Iterator) = _
      rw [Nat.add_mul, Nat.one_mul]
    have hget : iterator_get (vector_iterator v k) = vector_get v k := by
      rw [vector_iterator_eq hinit hes (Nat.le_of_lt hlt)]
      unfold iterator_get vector_get
      rw [if_neg (by omega), if_neg (by omega),
        offset_eq hinit (by have := hinit.2.2.2.2; omega)]
    unfold iterator_walk
    rw [hne, hstep, ih (k + 1) f (by omega) (by omega), hget]
    simp [List.range'_succ]

/-- The walk from the cursor at `k` does not meet the end when the fuel is short of the
`size - k` steps. -/
theorem iterator_walk_short {v : Vector} (hinit : Initialized v) (hes : 0 < v.element_size)
    (fuel : Nat) :
    ∀ k, k + fuel < v.size →
      iterator_walk fuel (vector_iterator v k) (vector_end v) = none := by
  have hend : vector_end v = ⟨some (v.size * v.element_size), v.element_size⟩ := by
    unfold vector_end
    exact vector_iterator_eq hinit hes (Nat.le_refl _)
  have hne : ∀ k, k < v.size →
      iterator_equals (vector_iterator v k) (vector_end v) = false := by
    intro k hlt
    rw [hend, vector_iterator_eq hinit hes (Nat.le_of_lt hlt)]
    unfold iterator_equals
    have := slot_le v.element_size hlt
    simp only [beq_eq_false_iff_ne, ne_eq, Option.some.injEq]
    omega
  induction fuel with
  | zero =>
    intro k hk
    unfold iterator_walk
    rw [hne k (by omega)]
    rfl
  | succ f ih =>
    intro k hk
    have hlt : k < v.size := by omega
    have hstep : iterator_increment (vector_iterator v k) = vector_iterator v (k + 1) := by
      rw [vector_iterator_eq hinit hes (Nat.le_of_lt hlt),
        vector_iterator_eq hinit hes (show k + 1 ≤ v.size by omega)]
      show (⟨some (k * v.element_size + v.element_size), v.element_size⟩ : Iterator) = _
      rw [Nat.add_mul, Nat.one_mul]
    unfold iterator_walk
    rw [hne k hlt, hstep, ih (k + 1) (by omega)]
    rfl

/-- Erasing the last element moves no byte: `_vector_move_left` at `size - 1` returns the
vector as it was. -/
theorem _vector_move_left_last {v : Vector} (hinit : Initialized v) (hpos : 0 < v.size) :
    _vector_move_left v (v.size - 1) = some v := by
  obtain ⟨buf, hd, hlen⟩ := hinit.block
  obtain ⟨r, hr, hrl, hrg⟩ := _vector_move_left_spec hinit hd (show v.size - 1 < v.size by omega)
  have hsm : (v.size - 1) * v.element_size + v.element_size = v.size * v.element_size := by
    have h := slot_le v.element_size (show v.size - 1 < v.size by omega)
    have h2 : (v.size - 1) * v.element_size = v.size * v.element_size - v.element_size := by
      rw [Nat.sub_mul, Nat.one_mul]
    omega
  have hrb : r = buf := by
    apply List.ext_getElem?
    intro k
    rw [hrg, if_neg (by omega)]
  rw [hr, hrb]
  cases v
  simp only at hd
  rw [hd]

/-- In the default build, on a non-empty initialized vector with `element_size > 0`, and
when the test `size == capacity * VECTOR_SHRINK_THRESHOLD` of `_vector_should_shrink`
and the test `size == capacity / 4` of `vector_erase` have the same outcome after the
removal, `vector_pop_back` and `vector_erase` of the last index are the same
computation, whatever the allocator does. -/
theorem vector_pop_back_eq_erase (cfg : Config) (heap : Allocator) (v : Vector)
    (hns : cfg.VECTOR_NO_SHRINK = false)
    (hT : v.size - 1 = cfg.capacity_times_SHRINK_THRESHOLD v.capacity ↔
      v.size - 1 = v.capacity / 4)
    (hinit : Initialized v) (hes : 0 < v.element_size) (hpos : 0 < v.size) :
    vector_pop_back cfg heap v = vector_erase cfg heap v (v.size - 1) := by
  have hsz := hinit.2.2.2.2
  have hc := hinit.2.2.1
  have hdec : decw v.size = v.size - 1 := decw_eq hpos (by omega)
  unfold vector_erase
  rw [if_neg (show ¬ v.element_size = 0 by omega),
    if_neg (show ¬ v.size - 1 ≥ v.size by omega), _vector_move_left_last hinit hpos]
  unfold vector_pop_back
  rw [if_neg (show ¬ v.element_size = 0 by omega)]
  simp only [hns, Bool.false_eq_true, if_false, _vector_should_shrink, beq_iff_eq, hdec]
  by_cases h : v.size - 1 = v.capacity / 4
  · rw [if_pos h, if_pos (hT.mpr h)]
  · rw [if_neg h, if_neg (fun h1 => h (hT.mp h1))]

/-! ## The claims -/

/-- C1. For an initialized vector (with the container invariant of the data model) with
`element_size > 0`, an index with `index <= size` and an element of `element_size` bytes,
when allocation succeeds and the grown block is representable in `size_t`,
`vector_insert` returns `SUCCESS` and the element sequence is the old one with the
element inserted at `index`: `size` grows by exactly 1, the element at `index` is the
new one, every element formerly at `j < index` is still at `j`, and every element
formerly at `j >= index` is now at `j + 1`.  The growth factor of the header is any
value of at least 2. -/
theorem vector_insert_inserts (cfg : Config) (heap : Allocator) (v : Vector) (index : Nat)
    (e : List Byte)
    (hG : 2 ≤ cfg.VECTOR_GROWTH_FACTOR)
    (hinit : Initialized v) (hinv : Invariant cfg v) (hes : 0 < v.element_size)
    (hidx : index ≤ v.size) (he : e.length = v.element_size)
    (halloc : ∀ n, heap.malloc n ≠ none)
    (hfit : v.size = v.capacity →
      v.size * cfg.VECTOR_GROWTH_FACTOR < SIZE_MOD ∧
      v.size * cfg.VECTOR_GROWTH_FACTOR * v.element_size < SIZE_MOD) :
    ∃ v1, vector_insert cfg heap v index (some e) = some (VECTOR_SUCCESS, v1) ∧
      v1.size = v.size + 1 ∧
      VECTOR_GET_AS v1 index = some e ∧
      (∀ j, j < index → VECTOR_GET_AS v1 j = VECTOR_GET_AS v j) ∧
      (∀ j, index ≤ j → j < v.size → VECTOR_GET_AS v1 (j + 1) = VECTOR_GET_AS v j) := by
  obtain ⟨v1, h1, -, -, h2, -, -, -, h3, h4, h5⟩ :=
    vector_insert_core cfg heap v index e hG hinit hinv hes hidx he halloc hfit
  exact ⟨v1, h1, h2, h3, h4, h5⟩

/-- C1 at a concrete full vector: insertion in the middle of two one-byte elements. -/
theorem vector_insert_inserts_witness :
    ∃ v1, vector_insert specConfig zeroAllocator ⟨2, 2, 1, some [10, 20]⟩ 1 (some [15]) =
        some (VECTOR_SUCCESS, v1) ∧
      v1.size = 2 + 1 ∧
      VECTOR_GET_AS v1 1 = some [15] ∧
      (∀ j, j < 1 → VECTOR_GET_AS v1 j = VECTOR_GET_AS ⟨2, 2, 1, some [10, 20]⟩ j) ∧
      (∀ j, 1 ≤ j → j < 2 →
        VECTOR_GET_AS v1 (j + 1) = VECTOR_GET_AS ⟨2, 2, 1, some [10, 20]⟩ j) :=
  vector_insert_inserts specConfig zeroAllocator ⟨2, 2, 1, some [10, 20]⟩ 1 [15]
    (by decide) (by decide) (by decide) (by decide) (by decide) (by decide)
    (by intro n h; cases h) (by intro _; decide)

/-- Erasing when the allocation of a shrink succeeds. For an initialized vector with
`element_size > 0` and an index below `size`, in the default build (shrinking enabled),
when the allocation of a shrink succeeds (and its byte count is representable in
`size_t`), `vector_erase` returns `SUCCESS` and the element sequence is the old one with
the element at `index` removed: `size` decreases by exactly 1, every element formerly at
`j < index` is still at `j`, and every element formerly at `j > index` is now at `j - 1`,
whether or not the erase triggers a shrink reallocation.  The growth factor of the header
is any value of at least 1. -/
theorem vector_erase_removes (cfg : Config) (heap : Allocator) (v : Vector) (index : Nat)
    (hns : cfg.VECTOR_NO_SHRINK = false) (hG : 1 ≤ cfg.VECTOR_GROWTH_FACTOR)
    (hinit : Initialized v) (hes : 0 < v.element_size) (hidx : index < v.size)
    (halloc : ∀ n, heap.malloc n ≠ none)
    (hfit : v.size - 1 = v.capacity / 4 →
      (v.size - 1) * cfg.VECTOR_GROWTH_FACTOR < SIZE_MOD ∧
      (v.size - 1) * cfg.VECTOR_GROWTH_FACTOR * v.element_size < SIZE_MOD) :
    ∃ v1, vector_erase cfg heap v index = some (VECTOR_SUCCESS, v1) ∧
      v1.size + 1 = v.size ∧
      (∀ j, j < index → VECTOR_GET_AS v1 j = VECTOR_GET_AS v j) ∧
      (∀ j, index < j → j < v.size → VECTOR_GET_AS v1 (j - 1) = VECTOR_GET_AS v j) := by
  obtain ⟨v1, h1, -, h2, -, -, h3, h4⟩ :=
    vector_erase_core cfg heap v index hns hG hinit hes hidx halloc hfit
  refine ⟨v1, h1, by omega, h3, ?_⟩
  intro j hij hj
  have := h4 (j - 1) (by omega) (by omega)
  rwa [show j - 1 + 1 = j by omega] at this

/-- Erasing at a concrete vector whose erase triggers a shrink that succeeds: two
one-byte elements in a block of capacity 4. -/
theorem vector_erase_removes_witness :
    ∃ v1, vector_erase specConfig zeroAllocator ⟨2, 4, 1, some [10, 20, 0, 0]⟩ 0 =
        some (VECTOR_SUCCESS, v1) ∧
      v1.size + 1 = 2 ∧
      (∀ j, j < 0 → VECTOR_GET_AS v1 j = VECTOR_GET_AS ⟨2, 4, 1, some [10, 20, 0, 0]⟩ j) ∧
      (∀ j, 0 < j → j < 2 →
        VECTOR_GET_AS v1 (j - 1) = VECTOR_GET_AS ⟨2, 4, 1, some [10, 20, 0, 0]⟩ j) :=
  vector_erase_removes specConfig zeroAllocator ⟨2, 4, 1, some [10, 20, 0, 0]⟩ 0
    rfl (by decide) (by decide) (by decide) (by decide)
    (by intro n h; cases h) (by intro _; decide)

/-- C2 fails on the code when the allocation of the shrink fails. The vector holds two
one-byte elements in a block of capacity 4 (initialized, `element_size > 0`, index 0
below `size`); erasing index 0 triggers a shrink, `_vector_reallocate` stores the null
result of the failed `malloc` in `data` before testing it, and `vector_erase` discards
the status: the call returns `SUCCESS` with a null `data`, so the element formerly at
index 1 is not readable at index 0.  The defect is the one of `_vector_reallocate`
recorded for C7; with the old block kept on a failed `malloc` the erase would have left
the element `[20]` at index 0. -/
theorem vector_erase_failed_shrink_loses_elements :
    Initialized ⟨2, 4, 1, some [10, 20, 0, 0]⟩ ∧
    vector_erase specConfig failingAllocator ⟨2, 4, 1, some [10, 20, 0, 0]⟩ 0 =
      some (VECTOR_SUCCESS, ⟨1, 4, 1, none⟩) ∧
    VECTOR_GET_AS ⟨2, 4, 1, some [10, 20, 0, 0]⟩ 1 = some [20] ∧
    VECTOR_GET_AS ⟨1, 4, 1, none⟩ 0 = none := by
  decide

/-- C3, as the code has it. For an initialized vector with `element_size > 0`,
`size <= capacity` and `capacity >= VECTOR_MINIMUM_CAPACITY`, and an element of
`element_size` bytes, when allocation succeeds and the grown block is representable in
`size_t`, `vector_push_back` returns `SUCCESS`, `size` grows by exactly 1, the new last
element is the pushed one, all earlier elements are unchanged, `capacity >= size` holds
afterwards, and the capacity is unchanged unless `size` was equal to `capacity`, in
which case it becomes `size * VECTOR_GROWTH_FACTOR`.  The header constants are any with
a growth factor of at least 2 and a minimum capacity of at least 1. -/
theorem vector_push_back_appends (cfg : Config) (heap : Allocator) (v : Vector)
    (e : List Byte)
    (hG : 2 ≤ cfg.VECTOR_GROWTH_FACTOR) (hMIN : 1 ≤ cfg.VECTOR_MINIMUM_CAPACITY)
    (hinit : Initialized v) (hinv : Invariant cfg v) (hes : 0 < v.element_size)
    (he : e.length = v.element_size)
    (halloc : ∀ n, heap.malloc n ≠ none)
    (hfit : v.size = v.capacity →
      v.size * cfg.VECTOR_GROWTH_FACTOR < SIZE_MOD ∧
      v.size * cfg.VECTOR_GROWTH_FACTOR * v.element_size < SIZE_MOD) :
    ∃ v1, vector_push_back cfg heap v (some e) = some (VECTOR_SUCCESS, v1) ∧
      v1.size = v.size + 1 ∧
      VECTOR_GET_AS v1 v.size = some e ∧
      (∀ j, j < v.size → VECTOR_GET_AS v1 j = VECTOR_GET_AS v j) ∧
      v1.size ≤ v1.capacity ∧
      (v.size ≠ v.capacity → v1.capacity = v.capacity) ∧
      (v.size = v.capacity → v1.capacity = v.size * cfg.VECTOR_GROWTH_FACTOR) := by
  obtain ⟨buf, hd, hlen⟩ := hinit.block
  obtain ⟨v1, buf1, hgrow, hinit1, hd1, hs1, hes1, hlt1, -, hpre1, hcap_ne, hcap_eq⟩ :=
    grow_step cfg heap hG hinit hinv hd halloc hfit
  obtain ⟨r, hr, hrlen, hget⟩ :=
    _vector_assign_spec hinit1 hd1 (show v1.size < v1.capacity by omega)
      (show e.length = v1.element_size by omega)
  have hc1 := hinit1.2.2.1
  have hinit2 : Initialized { v1 with data := some r, size := v.size + 1 } := by
    have := hinit1.with_data hd1 hrlen
    exact ⟨this.1, this.2.1, this.2.2.1, this.2.2.2.1, by show v.size + 1 ≤ v1.capacity; omega⟩
  have hes1' : 0 < v1.element_size := by omega
  refine ⟨{ v1 with data := some r, size := v.size + 1 }, ?_, rfl, ?_, ?_, ?_, hcap_ne, ?_⟩
  · unfold vector_push_back
    simp only [hgrow, hr]
    rw [if_neg (by decide)]
    simp only [hs1, incw_eq (show v.size + 1 < SIZE_MOD by omega)]
  · rw [VECTOR_GET_AS_of_lt hinit2 rfl hes1' (show v.size < v.size + 1 by omega)]
    congr 1
    show (r.drop (v.size * v1.element_size)).take v1.element_size = e
    apply slice_eq_of_getElem? (by omega)
    intro k hk
    rw [hget, hs1, if_pos (by omega)]
    congr 1
    omega
  · intro j hj
    rw [VECTOR_GET_AS_of_lt hinit2 rfl hes1' (show j < v.size + 1 by omega),
      VECTOR_GET_AS_of_lt hinit hd hes hj]
    congr 1
    show (r.drop (j * v1.element_size)).take v1.element_size = _
    rw [hes1]
    apply slice_congr
    intro k hk
    have := slot_le v.element_size hj
    rw [hget, hs1, hes1, if_neg (by omega)]
    exact hpre1 _ (by omega)
  · show v.size + 1 ≤ v1.capacity
    omega
  · intro hfull
    rw [hcap_eq hfull]
    have : 1 ≤ v.size := by
      have := hinv.2
      omega
    have : v.size ≤ v.size * cfg.VECTOR_GROWTH_FACTOR := Nat.le_mul_of_pos_right _ (by omega)
    omega

/-- C3 at a concrete full vector: two one-byte slots, both in use. -/
theorem vector_push_back_appends_witness :
    ∃ v1, vector_push_back specConfig zeroAllocator ⟨2, 2, 1, some [10, 20]⟩ (some [30]) =
        some (VECTOR_SUCCESS, v1) ∧
      v1.size = 2 + 1 ∧
      VECTOR_GET_AS v1 2 = some [30] ∧
      (∀ j, j < 2 → VECTOR_GET_AS v1 j = VECTOR_GET_AS ⟨2, 2, 1, some [10, 20]⟩ j) ∧
      v1.size ≤ v1.capacity ∧
      ((2 : Nat) ≠ 2 → v1.capacity = 2) ∧
      ((2 : Nat) = 2 → v1.capacity = 2 * 2) :=
  vector_push_back_appends specConfig zeroAllocator ⟨2, 2, 1, some [10, 20]⟩ [30]
    (by decide) (by decide) (by decide) (by decide) (by decide) (by decide)
    (by intro n h; cases h) (by intro _; decide)

/-- C3 as stated fails on a vector of zero-byte elements. The vector has `size` and
`capacity` both `2 ^ 63`, `element_size` 0 and the block of `malloc(0)`: it is
initialized, `size <= capacity` and `capacity >= VECTOR_MINIMUM_CAPACITY` hold, and the
allocation of the growth succeeds, yet `size * VECTOR_GROWTH_FACTOR` wraps to 0 in
`size_t`, the reallocation applies the floor, and `vector_push_back` returns `SUCCESS`
with `size` `2 ^ 63 + 1` and `capacity` 2: `capacity >= size` does not hold afterwards
and the new capacity is not the old `size * VECTOR_GROWTH_FACTOR`. -/
theorem vector_push_back_wraps_growth :
    Initialized ⟨2 ^ 63, 2 ^ 63, 0, some []⟩ ∧
    Invariant specConfig ⟨2 ^ 63, 2 ^ 63, 0, some []⟩ ∧
    zeroAllocator.malloc 0 = some [] ∧
    vector_push_back specConfig zeroAllocator ⟨2 ^ 63, 2 ^ 63, 0, some []⟩ (some []) =
      some (VECTOR_SUCCESS, ⟨2 ^ 63 + 1, 2, 0, some []⟩) ∧
    ¬ (2 ^ 63 + 1 ≤ 2) ∧
    (2 : Nat) ≠ 2 ^ 63 * specConfig.VECTOR_GROWTH_FACTOR := by
  decide

/-- C4. For an initialized vector with `element_size > 0`, an index below `size` and an
element of `element_size` bytes, `vector_assign` returns `SUCCESS`; afterwards the bytes
read through `vector_get index` are the element, and `size`, `capacity`, `element_size`
and the element at every other index are unchanged. -/
theorem vector_assign_get_roundtrip (v : Vector) (index : Nat) (e : List Byte)
    (hinit : Initialized v) (hes : 0 < v.element_size) (hidx : index < v.size)
    (he : e.length = v.element_size) :
    ∃ v1, vector_assign v index (some e) = some (VECTOR_SUCCESS, v1) ∧
      vector_get v1 index ≠ none ∧
      VECTOR_GET_AS v1 index = some e ∧
      v1.size = v.size ∧ v1.capacity = v.capacity ∧ v1.element_size = v.element_size ∧
      ∀ j, j ≠ index → VECTOR_GET_AS v1 j = VECTOR_GET_AS v j := by
  obtain ⟨buf, hd, hlen⟩ := hinit.block
  have hsz := hinit.2.2.2.2
  obtain ⟨r, hr, hrlen, hget⟩ := _vector_assign_spec hinit hd (show index < v.capacity by omega) he
  have hinit1 := hinit.with_data hd hrlen
  refine ⟨{ v with data := some r }, ?_, ?_, ?_, rfl, rfl, rfl, ?_⟩
  · unfold vector_assign
    simp only [Option.isNone_some, Bool.false_eq_true, if_false,
      show v.element_size ≠ 0 by omega, show ¬ index ≥ v.size by omega, hr]
  · unfold vector_get
    simp [show v.element_size ≠ 0 by omega, show ¬ v.size ≤ index by omega]
  · rw [VECTOR_GET_AS_of_lt hinit1 rfl hes hidx]
    congr 1
    show (r.drop (index * v.element_size)).take v.element_size = e
    apply slice_eq_of_getElem? he
    intro k hk
    rw [hget, if_pos (by omega)]
    congr 1
    omega
  · intro j hj
    by_cases hjs : j < v.size
    · rw [VECTOR_GET_AS_of_lt hinit1 rfl hes hjs, VECTOR_GET_AS_of_lt hinit hd hes hjs]
      congr 1
      show (r.drop (j * v.element_size)).take v.element_size = _
      apply slice_congr
      intro k hk
      rw [hget, if_neg]
      rcases Nat.lt_or_gt_of_ne hj with hlt | hgt
      · have := slot_le v.element_size hlt
        omega
      · have := slot_le v.element_size hgt
        omega
    · rw [VECTOR_GET_AS_of_ge _ (by simpa using hjs), VECTOR_GET_AS_of_ge _ (by simpa using hjs)]

/-- C4 at a concrete vector: three one-byte slots, the middle one overwritten. -/
theorem vector_assign_get_roundtrip_witness :
    ∃ v1, vector_assign ⟨3, 4, 1, some [10, 20, 30, 0]⟩ 1 (some [99]) =
        some (VECTOR_SUCCESS, v1) ∧
      vector_get v1 1 ≠ none ∧
      VECTOR_GET_AS v1 1 = some [99] ∧
      v1.size = 3 ∧ v1.capacity = 4 ∧ v1.element_size = 1 ∧
      ∀ j, j ≠ 1 → VECTOR_GET_AS v1 j = VECTOR_GET_AS ⟨3, 4, 1, some [10, 20, 30, 0]⟩ j :=
  vector_assign_get_roundtrip ⟨3, 4, 1, some [10, 20, 30, 0]⟩ 1 [99]
    (by decide) (by decide) (by decide) (by decide)

/-- C6, as the code has it. The predicate `size <= capacity` and
`capacity >= VECTOR_MINIMUM_CAPACITY` holds after a successful `vector_setup` and after
every successful operation (`vector_copy` for the destination, `push_back`,
`push_front`, `insert`, `assign`, `pop_back` on a non-empty vector, `pop_front`, `erase`,
`clear`, `resize`, `reserve`, `shrink_to_fit`, `swap`) whose `size_t` products do not
wrap, so it holds in every state of `Reachable`.  The header constants are any with a
growth factor of at least 2 and a minimum capacity of at most 2. -/
theorem reachable_invariant (cfg : Config) (hG : 2 ≤ cfg.VECTOR_GROWTH_FACTOR)
    (hMIN : cfg.VECTOR_MINIMUM_CAPACITY ≤ 2) (v : Vector) (h : Reachable cfg v) :
    Invariant cfg v :=
  (h.bounds hG hMIN).1

/-- C6 on a concrete run: setup, three `push_back` (the third one grows the block), an
`erase` and a shrinking `resize`. -/
theorem reachable_invariant_witness :
    Invariant specConfig ⟨1, 2, 1, some [8, 0]⟩ :=
  reachable_invariant specConfig (by decide) (by decide) ⟨1, 2, 1, some [8, 0]⟩
    (Reachable.resize zeroAllocator ⟨2, 4, 1, some [8, 9, 9, 0]⟩ 1 _
      (Reachable.erase zeroAllocator ⟨3, 4, 1, some [7, 8, 9, 0]⟩ 0 _
        (Reachable.push_back zeroAllocator ⟨2, 2, 1, some [7, 8]⟩ (some [9]) _
          (Reachable.push_back zeroAllocator ⟨1, 2, 1, some [7, 0]⟩ (some [8]) _
            (Reachable.push_back zeroAllocator ⟨0, 2, 1, some [0, 0]⟩ (some [7]) _
              (Reachable.setup zeroAllocator 0 1 (by decide) (by decide))
              (by decide) (by decide))
            (by decide) (by decide))
          (by decide) (by decide))
        (by decide) (by decide))
      (by decide) (by decide))

/-- C6 as stated fails where a `size_t` product wraps.  After `vector_setup` with
capacity 0 and one-byte elements, `vector_resize` to `2 ^ 63` computes
`new_size * VECTOR_GROWTH_FACTOR = 0`, which the floor rule turns into a successful
no-op: the size becomes `2 ^ 63` while the capacity stays 2.  On a full vector of
`2 ^ 63` zero-byte elements `vector_push_back` reallocates to the minimum capacity and
succeeds, and `vector_copy` gives the destination capacity 0. -/
theorem resize_breaks_invariant :
    (vector_setup specConfig zeroAllocator 0 1 = (VECTOR_SUCCESS, ⟨0, 2, 1, some [0, 0]⟩) ∧
      Invariant specConfig ⟨0, 2, 1, some [0, 0]⟩ ∧
      vector_resize specConfig zeroAllocator ⟨0, 2, 1, some [0, 0]⟩ (2 ^ 63) =
        some (VECTOR_SUCCESS, ⟨2 ^ 63, 2, 1, some [0, 0]⟩) ∧
      ¬ Invariant specConfig ⟨2 ^ 63, 2, 1, some [0, 0]⟩) ∧
    (vector_setup specConfig zeroAllocator (2 ^ 63) 0 =
        (VECTOR_SUCCESS, ⟨0, 2 ^ 63, 0, some []⟩) ∧
      vector_resize specConfig zeroAllocator ⟨0, 2 ^ 63, 0, some []⟩ (2 ^ 63) =
        some (VECTOR_SUCCESS, ⟨2 ^ 63, 2 ^ 63, 0, some []⟩) ∧
      Invariant specConfig ⟨2 ^ 63, 2 ^ 63, 0, some []⟩ ∧
      vector_push_back specConfig zeroAllocator ⟨2 ^ 63, 2 ^ 63, 0, some []⟩ (some []) =
        some (VECTOR_SUCCESS, ⟨2 ^ 63 + 1, 2, 0, some []⟩) ∧
      ¬ Invariant specConfig ⟨2 ^ 63 + 1, 2, 0, some []⟩ ∧
      vector_copy specConfig zeroAllocator ⟨0, 0, 0, none⟩ ⟨2 ^ 63, 2 ^ 63, 0, some []⟩ =
        some (VECTOR_SUCCESS, ⟨2 ^ 63, 0, 0, some []⟩) ∧
      ¬ Invariant specConfig ⟨2 ^ 63, 0, 0, some []⟩) := by
  decide

/-- C7 fails on the code: with a failing `malloc`, each reallocating operation returns
`ERROR` but leaves `data` null instead of the old block, and the shrinking branch of
`vector_resize` has also changed `size`. -/
theorem reallocation_failure_loses_block :
    vector_push_back specConfig failingAllocator ⟨2, 2, 1, some [10, 20]⟩ (some [30]) =
      some (VECTOR_ERROR, ⟨2, 2, 1, none⟩) ∧
    vector_insert specConfig failingAllocator ⟨2, 2, 1, some [10, 20]⟩ 0 (some [30]) =
      some (VECTOR_ERROR, ⟨2, 2, 1, none⟩) ∧
    vector_resize specConfig failingAllocator ⟨2, 2, 1, some [10, 20]⟩ 5 =
      some (VECTOR_ERROR, ⟨2, 2, 1, none⟩) ∧
    vector_resize specConfig failingAllocator ⟨3, 8, 1, some [1, 2, 3, 0, 0, 0, 0, 0]⟩ 1 =
      some (VECTOR_ERROR, ⟨1, 8, 1, none⟩) ∧
    vector_reserve specConfig failingAllocator ⟨2, 2, 1, some [10, 20]⟩ 5 =
      some (VECTOR_ERROR, ⟨2, 2, 1, none⟩) ∧
    vector_shrink_to_fit specConfig failingAllocator ⟨2, 4, 1, some [10, 20, 0, 0]⟩ =
      some (VECTOR_ERROR, ⟨2, 4, 1, none⟩) := by
  decide

/-- C8. For an initialized vector with the container invariant, whatever its size and
capacity, when allocation succeeds `vector_clear` returns `SUCCESS` and afterwards
`size == 0`, `vector_is_empty` is true and `capacity == VECTOR_MINIMUM_CAPACITY`.  This
holds for every value of the header constants. -/
theorem vector_clear_resets (cfg : Config) (heap : Allocator) (v : Vector)
    (hinit : Initialized v) (hinv : Invariant cfg v)
    (halloc : ∀ n, heap.malloc n ≠ none) :
    ∃ v1, vector_clear cfg heap v = some (VECTOR_SUCCESS, v1) ∧
      v1.size = 0 ∧ vector_is_empty v1 = true ∧
      v1.capacity = cfg.VECTOR_MINIMUM_CAPACITY := by
  obtain ⟨buf, hd, hlen⟩ := hinit.block
  have hinit1 : Initialized { v with size := 0 } := hinit.with_size (Nat.zero_le _)
  have hmod : 0 < SIZE_MOD := by decide
  obtain ⟨r, hr, -, -⟩ :=
    _vector_reallocate_spec cfg heap hinit1
      (show ({ v with size := 0 } : Vector).data = some buf from hd) 0 halloc hmod
      (by rw [Nat.zero_mul]; exact hmod) (Nat.zero_le _)
  rw [reallocated_capacity_eq_max cfg 0 hinv.2] at hr
  refine ⟨⟨0, max 0 cfg.VECTOR_MINIMUM_CAPACITY, v.element_size, some r⟩, ?_, rfl, rfl, ?_⟩
  · unfold vector_clear vector_resize
    rw [if_pos (Nat.zero_le _)]
    have h0 : mulw 0 cfg.VECTOR_GROWTH_FACTOR = 0 := by
      unfold mulw
      rw [Nat.zero_mul]
      rfl
    simp only [h0, hr]
    rw [if_neg (by decide)]
  · show max 0 cfg.VECTOR_MINIMUM_CAPACITY = cfg.VECTOR_MINIMUM_CAPACITY
    omega

/-- C8 at a concrete vector: three one-byte elements in a block of capacity 8. -/
theorem vector_clear_resets_witness :
    ∃ v1, vector_clear specConfig zeroAllocator ⟨3, 8, 1, some [1, 2, 3, 0, 0, 0, 0, 0]⟩ =
        some (VECTOR_SUCCESS, v1) ∧
      v1.size = 0 ∧ vector_is_empty v1 = true ∧
      v1.capacity = specConfig.VECTOR_MINIMUM_CAPACITY :=
  vector_clear_resets specConfig zeroAllocator ⟨3, 8, 1, some [1, 2, 3, 0, 0, 0, 0, 0]⟩
    (by decide) (by decide) (by intro n h; cases h)

/-- C9, as the code has it. For an initialized vector with the container invariant and a
`new_size` whose target block is representable in `size_t`, when allocation succeeds
`vector_resize` returns `SUCCESS` with `size == new_size`, and every element at an index
below `min(old size, new_size)` is unchanged; in particular `resize(n)` called when
`size == n` leaves `size` and every element unchanged (the capacity may still change).
The header constants are any with a growth factor of at least 1 and a shrink threshold
of at most 1. -/
theorem vector_resize_sets_size (cfg : Config) (heap : Allocator) (v : Vector)
    (new_size : Nat)
    (hG : 1 ≤ cfg.VECTOR_GROWTH_FACTOR)
    (hT : cfg.capacity_times_SHRINK_THRESHOLD v.capacity ≤ v.capacity)
    (hinit : Initialized v) (hinv : Invariant cfg v)
    (halloc : ∀ n, heap.malloc n ≠ none)
    (hfit : new_size ≤ cfg.capacity_times_SHRINK_THRESHOLD v.capacity ∨
        v.capacity < new_size →
      new_size * cfg.VECTOR_GROWTH_FACTOR < SIZE_MOD ∧
      new_size * cfg.VECTOR_GROWTH_FACTOR * v.element_size < SIZE_MOD) :
    ∃ v1, vector_resize cfg heap v new_size = some (VECTOR_SUCCESS, v1) ∧
      v1.size = new_size ∧
      (∀ j, j < min v.size new_size → VECTOR_GET_AS v1 j = VECTOR_GET_AS v j) ∧
      (v.size = new_size → v1.size = v.size ∧ ∀ j, VECTOR_GET_AS v1 j = VECTOR_GET_AS v j) := by
  obtain ⟨v1, h1, -, h2, -, -, h3⟩ :=
    vector_resize_core cfg heap v new_size hG hT hinit hinv halloc hfit
  refine ⟨v1, h1, h2, fun j hj => h3 j (by omega) (by omega), ?_⟩
  intro hsame
  refine ⟨by omega, fun j => ?_⟩
  by_cases hj : j < v.size
  · exact h3 j hj (by omega)
  · rw [VECTOR_GET_AS_of_ge v1 (by omega), VECTOR_GET_AS_of_ge v (by omega)]

/-- C9 at a concrete vector: three one-byte elements in a block of capacity 4, resized
to 6. -/
theorem vector_resize_sets_size_witness :
    ∃ v1, vector_resize specConfig zeroAllocator ⟨3, 4, 1, some [1, 2, 3, 0]⟩ 6 =
        some (VECTOR_SUCCESS, v1) ∧
      v1.size = 6 ∧
      (∀ j, j < min 3 6 → VECTOR_GET_AS v1 j = VECTOR_GET_AS ⟨3, 4, 1, some [1, 2, 3, 0]⟩ j) ∧
      ((3 : Nat) = 6 → v1.size = 3 ∧
        ∀ j, VECTOR_GET_AS v1 j = VECTOR_GET_AS ⟨3, 4, 1, some [1, 2, 3, 0]⟩ j) :=
  vector_resize_sets_size specConfig zeroAllocator ⟨3, 4, 1, some [1, 2, 3, 0]⟩ 6
    (by decide) (by decide) (by decide) (by decide) (by intro n h; cases h)
    (by intro _; decide)

/-- C9 as stated fails twice.  An empty vector of capacity 10 resized to its own size 0
comes back with capacity 2: a resize to the same size does not leave the capacity
unchanged.  And for `new_size = 2 ^ 63` the product `new_size * VECTOR_GROWTH_FACTOR`
wraps to 0, so a vector of three elements is reallocated to 2 slots and the `memcpy`
of its three elements leaves the new block. -/
theorem vector_resize_same_size_changes_capacity :
    (Initialized ⟨0, 10, 1, some [0, 0, 0, 0, 0, 0, 0, 0, 0, 0]⟩ ∧
      Invariant specConfig ⟨0, 10, 1, some [0, 0, 0, 0, 0, 0, 0, 0, 0, 0]⟩ ∧
      vector_resize specConfig zeroAllocator ⟨0, 10, 1, some [0, 0, 0, 0, 0, 0, 0, 0, 0, 0]⟩ 0 =
        some (VECTOR_SUCCESS, ⟨0, 2, 1, some [0, 0]⟩)) ∧
    (Initialized ⟨3, 4, 1, some [1, 2, 3, 0]⟩ ∧
      Invariant specConfig ⟨3, 4, 1, some [1, 2, 3, 0]⟩ ∧
      vector_resize specConfig zeroAllocator ⟨3, 4, 1, some [1, 2, 3, 0]⟩ (2 ^ 63) = none) := by
  decide

/-- C10, as the code has it. For an initialized vector with the container invariant and
a `new_size` whose target block is representable in `size_t`, `vector_resize` returns
normally, with `SUCCESS` when allocation succeeds, and after a successful resize: if
`new_size <= capacity * VECTOR_SHRINK_THRESHOLD` or `new_size > capacity` then
`capacity == max(VECTOR_MINIMUM_CAPACITY, new_size * VECTOR_GROWTH_FACTOR)`, which
exceeds `new_size` when growing; otherwise the capacity is unchanged.  The header
constants are any with a growth factor of at least 2 and a shrink threshold of at
most 1. -/
theorem vector_resize_capacity (cfg : Config) (heap : Allocator) (v : Vector)
    (new_size : Nat)
    (hG : 2 ≤ cfg.VECTOR_GROWTH_FACTOR)
    (hT : cfg.capacity_times_SHRINK_THRESHOLD v.capacity ≤ v.capacity)
    (hinit : Initialized v) (hinv : Invariant cfg v)
    (hfit : new_size ≤ cfg.capacity_times_SHRINK_THRESHOLD v.capacity ∨
        v.capacity < new_size →
      new_size * cfg.VECTOR_GROWTH_FACTOR < SIZE_MOD ∧
      new_size * cfg.VECTOR_GROWTH_FACTOR * v.element_size < SIZE_MOD) :
    ∃ rc v1, vector_resize cfg heap v new_size = some (rc, v1) ∧
      ((∀ n, heap.malloc n ≠ none) → rc = VECTOR_SUCCESS) ∧
      (rc = VECTOR_SUCCESS →
        (new_size ≤ cfg.capacity_times_SHRINK_THRESHOLD v.capacity ∨ v.capacity < new_size →
          v1.capacity =
            max cfg.VECTOR_MINIMUM_CAPACITY (new_size * cfg.VECTOR_GROWTH_FACTOR)) ∧
        (v.capacity < new_size → new_size < v1.capacity) ∧
        (¬ (new_size ≤ cfg.capacity_times_SHRINK_THRESHOLD v.capacity ∨
            v.capacity < new_size) → v1.capacity = v.capacity)) := by
  rcases vector_resize_cases cfg heap v new_size (by omega) hT hinit hinv hfit with
    ⟨v1, h1, -, -, -, hcap, -⟩ | ⟨⟨v1, h1, -⟩, n, hn⟩
  · refine ⟨VECTOR_SUCCESS, v1, h1, fun _ => rfl, fun _ => ⟨?_, ?_, ?_⟩⟩
    · intro hc
      rw [hcap, if_pos hc, Nat.max_comm]
    · intro hc
      rw [hcap, if_pos (Or.inr hc)]
      have : 2 * new_size ≤ new_size * cfg.VECTOR_GROWTH_FACTOR := by
        rw [Nat.mul_comm 2]
        exact Nat.mul_le_mul_left _ hG
      omega
    · intro hc
      rw [hcap, if_neg hc]
  · refine ⟨VECTOR_ERROR, v1, h1, fun h => absurd hn (h n), fun h => ?_⟩
    exact absurd h (by decide)

/-- C10 at a concrete vector: an empty vector of capacity 2 resized to 100. -/
theorem vector_resize_capacity_witness :
    ∃ rc v1, vector_resize specConfig zeroAllocator ⟨0, 2, 1, some [0, 0]⟩ 100 =
        some (rc, v1) ∧
      ((∀ n, zeroAllocator.malloc n ≠ none) → rc = VECTOR_SUCCESS) ∧
      (rc = VECTOR_SUCCESS →
        (100 ≤ specConfig.capacity_times_SHRINK_THRESHOLD 2 ∨ 2 < 100 →
          v1.capacity =
            max specConfig.VECTOR_MINIMUM_CAPACITY (100 * specConfig.VECTOR_GROWTH_FACTOR)) ∧
        ((2 : Nat) < 100 → 100 < v1.capacity) ∧
        (¬ (100 ≤ specConfig.capacity_times_SHRINK_THRESHOLD 2 ∨ 2 < 100) →
          v1.capacity = 2)) :=
  vector_resize_capacity specConfig zeroAllocator ⟨0, 2, 1, some [0, 0]⟩ 100
    (by decide) (by decide) (by decide) (by decide) (by intro _; decide)

/-- C10 as stated fails for `new_size = 2 ^ 63`, where `new_size * VECTOR_GROWTH_FACTOR`
wraps to 0: on an empty vector of capacity 2 the resize is a successful no-op of the
floor rule, so the size becomes `2 ^ 63` while the capacity stays 2, which is neither
`max(VECTOR_MINIMUM_CAPACITY, new_size * VECTOR_GROWTH_FACTOR)` nor above `new_size`. -/
theorem vector_resize_wraps_capacity :
    Initialized ⟨0, 2, 1, some [0, 0]⟩ ∧ Invariant specConfig ⟨0, 2, 1, some [0, 0]⟩ ∧
    vector_resize specConfig zeroAllocator ⟨0, 2, 1, some [0, 0]⟩ (2 ^ 63) =
      some (VECTOR_SUCCESS, ⟨2 ^ 63, 2, 1, some [0, 0]⟩) ∧
    (2 : Nat) < 2 ^ 63 ∧
    (2 : Nat) ≠
      max specConfig.VECTOR_MINIMUM_CAPACITY (2 ^ 63 * specConfig.VECTOR_GROWTH_FACTOR) ∧
    ¬ (2 ^ 63 < (2 : Nat)) := by
  decide

/-- C11, as the code has it. For an initialized vector with the container invariant and a
`size_t` value `n` for which `n * element_size` is representable in `size_t` when
`n > capacity`, when allocation succeeds `vector_reserve(n)` returns `SUCCESS`, leaves
`size` and every element unchanged, sets the capacity to exactly `n` if `n > capacity`
and leaves it unchanged otherwise, so that `capacity >= n` afterwards and the capacity
never shrinks.  This holds for every value of the header constants. -/
theorem vector_reserve_capacity (cfg : Config) (heap : Allocator) (v : Vector) (n : Nat)
    (hinit : Initialized v) (hinv : Invariant cfg v)
    (halloc : ∀ m, heap.malloc m ≠ none)
    (hfit : v.capacity < n → n < SIZE_MOD ∧ n * v.element_size < SIZE_MOD) :
    ∃ v1, vector_reserve cfg heap v n = some (VECTOR_SUCCESS, v1) ∧
      v1.size = v.size ∧
      (∀ j, VECTOR_GET_AS v1 j = VECTOR_GET_AS v j) ∧
      (v.capacity < n → v1.capacity = n) ∧
      (¬ v.capacity < n → v1.capacity = v.capacity) ∧
      n ≤ v1.capacity ∧ v.capacity ≤ v1.capacity := by
  obtain ⟨buf, hd, hlen⟩ := hinit.block
  have hsc := hinit.2.2.2.2
  by_cases hgt : v.capacity < n
  · obtain ⟨hf1, hf2⟩ := hfit hgt
    obtain ⟨r, hr, hinit1, hrg⟩ :=
      _vector_reallocate_spec cfg heap hinit hd n halloc hf1 hf2 (by omega)
    have hcap : reallocated_capacity cfg n v.capacity = n := by
      rw [reallocated_capacity_eq_max cfg n hinv.2]
      have := hinv.2
      omega
    rw [hcap] at hr hinit1
    refine ⟨⟨v.size, n, v.element_size, some r⟩, ?_, rfl, ?_, fun _ => rfl,
      fun h => absurd hgt h, Nat.le_refl n, Nat.le_of_lt hgt⟩
    · unfold vector_reserve
      rw [if_pos hgt]
      simp only [hr]
      rw [if_neg (by decide)]
    · intro j
      by_cases hj : j < v.size
      · have := slot_le v.element_size hj
        exact VECTOR_GET_AS_congr hinit1 hinit rfl hd rfl hj hj
          (fun k hk => hrg k (by omega))
      · rw [VECTOR_GET_AS_of_ge v (show v.size ≤ j by omega),
          VECTOR_GET_AS_of_ge ⟨v.size, n, v.element_size, some r⟩
            (show v.size ≤ j by omega)]
  · refine ⟨v, ?_, rfl, fun _ => rfl, fun h => absurd h hgt, fun _ => rfl, by omega,
      Nat.le_refl _⟩
    unfold vector_reserve
    rw [if_neg hgt]

/-- C11 at a concrete vector: the test of the repository in small, a vector of capacity 4
reserved to 9. -/
theorem vector_reserve_capacity_witness :
    ∃ v1, vector_reserve specConfig zeroAllocator ⟨3, 4, 1, some [1, 2, 3, 0]⟩ 9 =
        some (VECTOR_SUCCESS, v1) ∧
      v1.size = 3 ∧
      (∀ j, VECTOR_GET_AS v1 j = VECTOR_GET_AS ⟨3, 4, 1, some [1, 2, 3, 0]⟩ j) ∧
      (4 < 9 → v1.capacity = 9) ∧
      (¬ 4 < 9 → v1.capacity = 4) ∧
      9 ≤ v1.capacity ∧ 4 ≤ v1.capacity :=
  vector_reserve_capacity specConfig zeroAllocator ⟨3, 4, 1, some [1, 2, 3, 0]⟩ 9
    (by decide) (by decide) (by intro m h; cases h) (by intro _; decide)

/-- C11 as stated fails for an `n` whose byte count wraps: with twenty two-byte elements
and `n = 2 ^ 63` the product `n * element_size` is 0 in `size_t`, so `malloc(0)` is what
succeeds, and the `memcpy` of the 40 live bytes leaves that block. -/
theorem vector_reserve_wraps_bytes :
    Initialized ⟨20, 32, 2, some (List.replicate 64 7)⟩ ∧
    Invariant specConfig ⟨20, 32, 2, some (List.replicate 64 7)⟩ ∧
    mulw (2 ^ 63) 2 = 0 ∧
    zeroAllocator.malloc 0 = some [] ∧
    vector_byte_size ⟨20, 32, 2, some (List.replicate 64 7)⟩ = 40 ∧
    memcpy [] 0 (List.replicate 64 7) 40 = none ∧
    vector_reserve specConfig zeroAllocator ⟨20, 32, 2, some (List.replicate 64 7)⟩ (2 ^ 63) =
      none := by
  decide

/-- C12, as the code has it. For a destination with a null `data` and an initialized
source, when allocation succeeds and neither `size * 2` nor `size * 2 * element_size`
of a non-empty source wraps around `size_t`, `vector_copy` returns `SUCCESS` and gives
the destination the size, the `element_size` and every element of the source, with
capacity `VECTOR_MINIMUM_CAPACITY` if the source is empty and
`max(VECTOR_MINIMUM_CAPACITY, size * 2)` otherwise; when the destination is already
initialized or the source is not, it returns `ERROR`.  The source is only read: the
embedding of `vector_copy` has no result for it.  The minimum capacity of the header is
any value of at most 2. -/
theorem vector_copy_copies (cfg : Config) (heap : Allocator) (destination source : Vector)
    (hMIN : cfg.VECTOR_MINIMUM_CAPACITY ≤ 2)
    (hd : destination.data = none) (hinit : Initialized source)
    (halloc : ∀ m, heap.malloc m ≠ none)
    (hfit : source.size ≠ 0 →
      source.size * 2 < SIZE_MOD ∧ source.size * 2 * source.element_size < SIZE_MOD) :
    (∃ v1, vector_copy cfg heap destination source = some (VECTOR_SUCCESS, v1) ∧
      v1.size = source.size ∧ v1.element_size = source.element_size ∧
      (∀ j, VECTOR_GET_AS v1 j = VECTOR_GET_AS source j) ∧
      (source.size = 0 → v1.capacity = cfg.VECTOR_MINIMUM_CAPACITY) ∧
      (source.size ≠ 0 →
        v1.capacity = max cfg.VECTOR_MINIMUM_CAPACITY (source.size * 2))) ∧
    (∀ d s : Vector, d.data ≠ none ∨ s.data = none →
      ∃ d1, vector_copy cfg heap d s = some (VECTOR_ERROR, d1)) := by
  constructor
  · obtain ⟨r, hr, hget⟩ := vector_copy_core cfg heap destination source hd hinit halloc hfit
    refine ⟨_, hr, rfl, rfl, hget, ?_, ?_⟩
    · intro h0
      show (if source.size = 0 then _ else _) = _
      rw [if_pos h0]
    · intro h0
      show (if source.size = 0 then _ else _) = _
      rw [if_neg h0]
      omega
  · intro d s h
    refine ⟨d, ?_⟩
    unfold vector_copy vector_is_initialized
    cases hdd : d.data with
    | some b => simp
    | none =>
      rcases h with h | h
      · exact absurd hdd h
      · simp [h]

/-- C12 at a concrete pair: an uninitialized destination and a source of three one-byte
elements. -/
theorem vector_copy_copies_witness :
    (∃ v1, vector_copy specConfig zeroAllocator ⟨0, 0, 0, none⟩ ⟨3, 4, 1, some [1, 2, 3, 0]⟩ =
        some (VECTOR_SUCCESS, v1) ∧
      v1.size = 3 ∧ v1.element_size = 1 ∧
      (∀ j, VECTOR_GET_AS v1 j = VECTOR_GET_AS ⟨3, 4, 1, some [1, 2, 3, 0]⟩ j) ∧
      ((3 : Nat) = 0 → v1.capacity = specConfig.VECTOR_MINIMUM_CAPACITY) ∧
      ((3 : Nat) ≠ 0 → v1.capacity = max specConfig.VECTOR_MINIMUM_CAPACITY (3 * 2))) ∧
    (∀ d s : Vector, d.data ≠ none ∨ s.data = none →
      ∃ d1, vector_copy specConfig zeroAllocator d s = some (VECTOR_ERROR, d1)) :=
  vector_copy_copies specConfig zeroAllocator ⟨0, 0, 0, none⟩ ⟨3, 4, 1, some [1, 2, 3, 0]⟩
    (by decide) rfl (by decide) (by intro m h; cases h) (by intro _; decide)

/-- C12 as stated fails on a source of zero-byte elements. The source has `size` and
`capacity` both `2 ^ 63`, `element_size` 0 and the block of `malloc(0)`: it is
initialized and not empty, the destination is uninitialized and the allocation succeeds,
yet `size * 2` wraps to 0 in `size_t` and `vector_copy` returns `SUCCESS` with a
destination of capacity 0, which is neither `max(VECTOR_MINIMUM_CAPACITY, size * 2)`
for the mathematical product nor for the wrapped one, and is below the destination's
own size. -/
theorem vector_copy_wraps_capacity :
    Initialized ⟨2 ^ 63, 2 ^ 63, 0, some []⟩ ∧
    vector_is_initialized ⟨0, 0, 0, none⟩ = false ∧
    zeroAllocator.malloc 0 = some [] ∧
    vector_copy specConfig zeroAllocator ⟨0, 0, 0, none⟩ ⟨2 ^ 63, 2 ^ 63, 0, some []⟩ =
      some (VECTOR_SUCCESS, ⟨2 ^ 63, 0, 0, some []⟩) ∧
    (0 : Nat) ≠ max specConfig.VECTOR_MINIMUM_CAPACITY (2 ^ 63 * 2) ∧
    (0 : Nat) ≠ max specConfig.VECTOR_MINIMUM_CAPACITY (mulw (2 ^ 63) 2) ∧
    ¬ (2 ^ 63 ≤ 0) := by
  decide

/-- C13 fails on the code: with an uninitialized destination `vector_swap` returns
`ERROR` without exchanging anything, `vector_move_assign` discards that status, destroys
the source and returns `SUCCESS`; the destination holds nothing of the source. -/
theorem vector_move_assign_swallows_swap_error :
    vector_swap ⟨0, 0, 0, none⟩ ⟨2, 2, 1, some [10, 20]⟩ =
      (VECTOR_ERROR, ⟨0, 0, 0, none⟩, ⟨2, 2, 1, some [10, 20]⟩) ∧
    vector_move_assign ⟨0, 0, 0, none⟩ ⟨2, 2, 1, some [10, 20]⟩ =
      (VECTOR_SUCCESS, ⟨0, 0, 0, none⟩, ⟨2, 2, 1, none⟩) := by
  decide

/-- C14. With assertions compiled out, for every vector (initialized or not), every
element pointer and every index: `vector_insert` with `index > size`, and
`vector_assign` and `vector_erase` with `index >= size`, return `ERROR` and leave the
vector as it was (size, capacity and every byte of the block); `vector_get` and
`vector_const_get` with `index >= size` return the null pointer, so `vector_front` and
`vector_back` of an empty vector are null; `vector_iterator` with `index > size` returns
the null cursor. -/
theorem out_of_range_is_rejected (cfg : Config) (heap : Allocator) (v : Vector)
    (index : Nat) (e : Option (List Byte)) :
    (index > v.size → vector_insert cfg heap v index e = some (VECTOR_ERROR, v)) ∧
    (index ≥ v.size → vector_assign v index e = some (VECTOR_ERROR, v)) ∧
    (index ≥ v.size → vector_erase cfg heap v index = some (VECTOR_ERROR, v)) ∧
    (index ≥ v.size → vector_get v index = none ∧ vector_const_get v index = none) ∧
    (v.size = 0 → vector_front v = none ∧ vector_back v = none) ∧
    (index > v.size → vector_iterator v index = ⟨none, 0⟩) := by
  refine ⟨?_, ?_, ?_, ?_, ?_, ?_⟩
  · intro h
    unfold vector_insert
    split
    · rfl
    · split
      · rfl
      · rfl
  · intro h
    unfold vector_assign
    split
    · rfl
    · split
      · rfl
      · rfl
  · intro h
    unfold vector_erase
    split
    · rfl
    · rfl
  · intro h
    unfold vector_get vector_const_get
    constructor
    · split
      · rfl
      · rfl
    · split
      · rfl
      · rfl
  · intro h
    unfold vector_front vector_back vector_get
    constructor
    · split
      · rfl
      · rw [if_pos (by omega)]
    · split
      · rfl
      · rw [if_pos (by omega)]
  · intro h
    unfold vector_iterator
    rw [if_pos h]

/-- C14 at a concrete vector of two one-byte elements and the index 5. -/
theorem out_of_range_is_rejected_witness :
    (5 > 2 →
      vector_insert specConfig zeroAllocator ⟨2, 2, 1, some [10, 20]⟩ 5 (some [30]) =
        some (VECTOR_ERROR, ⟨2, 2, 1, some [10, 20]⟩)) ∧
    (5 ≥ 2 →
      vector_assign ⟨2, 2, 1, some [10, 20]⟩ 5 (some [30]) =
        some (VECTOR_ERROR, ⟨2, 2, 1, some [10, 20]⟩)) ∧
    (5 ≥ 2 →
      vector_erase specConfig zeroAllocator ⟨2, 2, 1, some [10, 20]⟩ 5 =
        some (VECTOR_ERROR, ⟨2, 2, 1, some [10, 20]⟩)) ∧
    (5 ≥ 2 →
      vector_get ⟨2, 2, 1, some [10, 20]⟩ 5 = none ∧
      vector_const_get ⟨2, 2, 1, some [10, 20]⟩ 5 = none) ∧
    ((2 : Nat) = 0 →
      vector_front ⟨2, 2, 1, some [10, 20]⟩ = none ∧
      vector_back ⟨2, 2, 1, some [10, 20]⟩ = none) ∧
    (5 > 2 → vector_iterator ⟨2, 2, 1, some [10, 20]⟩ 5 = ⟨none, 0⟩) :=
  out_of_range_is_rejected specConfig zeroAllocator ⟨2, 2, 1, some [10, 20]⟩ 5 (some [30])

/-- C15 fails on the code for `vector_push_back`, which has no `element_size` guard: on
an empty vector with `element_size == 0` it returns `SUCCESS` and the size becomes 1,
while `vector_insert` at the same position returns `ERROR`. -/
theorem vector_push_back_ignores_zero_element_size :
    vector_push_back specConfig zeroAllocator ⟨0, 2, 0, some []⟩ (some []) =
      some (VECTOR_SUCCESS, ⟨1, 2, 0, some []⟩) ∧
    vector_insert specConfig zeroAllocator ⟨0, 2, 0, some []⟩ 0 (some []) =
      some (VECTOR_ERROR, ⟨0, 2, 0, some []⟩) := by
  decide

/-- C16. For an initialized vector with `element_size > 0` and every `k <= size`: the
cursor obtained from `vector_begin` by `k` calls of `iterator_increment` is
`vector_iterator(k)`, its `iterator_index` is `k`, for `k < size` its `iterator_get` is
the non-null pointer `vector_get(k)` and it differs from `vector_end`, and for
`k == size` it is `vector_end`.  Distinct indices have distinct slots.  Hence the walk
from `vector_begin` to `vector_end` ends after exactly `size` steps (it returns with
`size` steps of fuel and not with less) and visits the slots `0, 1, ..., size - 1` once
each, in this order. -/
theorem iterator_walk_visits_all (v : Vector) (hinit : Initialized v)
    (hes : 0 < v.element_size) :
    (∀ k, k ≤ v.size →
      Nat.iterate iterator_increment k (vector_begin v) = vector_iterator v k ∧
      iterator_index v (Nat.iterate iterator_increment k (vector_begin v)) = some k ∧
      (k < v.size →
        iterator_get (Nat.iterate iterator_increment k (vector_begin v)) = vector_get v k ∧
        vector_get v k ≠ none ∧
        iterator_equals (Nat.iterate iterator_increment k (vector_begin v)) (vector_end v) =
          false) ∧
      (k = v.size → Nat.iterate iterator_increment k (vector_begin v) = vector_end v)) ∧
    (∀ i j, i < v.size → j < v.size → vector_get v i = vector_get v j → i = j) ∧
    (∀ fuel, v.size ≤ fuel →
      VECTOR_FOR_EACH fuel v = some ((List.range v.size).map (vector_get v))) ∧
    (∀ fuel, fuel < v.size → VECTOR_FOR_EACH fuel v = none) := by
  obtain ⟨buf, hd, -⟩ := hinit.block
  have hsc := hinit.2.2.2.2
  have hget : ∀ k, k < v.size → vector_get v k = some (k * v.element_size) := by
    intro k hk
    unfold vector_get
    rw [if_neg (by omega), if_neg (by omega), offset_eq hinit (by omega)]
  have hbegin : vector_begin v = ⟨some 0, v.element_size⟩ := by
    unfold vector_begin
    rw [vector_iterator_eq hinit hes (Nat.zero_le _), Nat.zero_mul]
  have hiter : ∀ k, k ≤ v.size →
      Nat.iterate iterator_increment k (vector_begin v) = vector_iterator v k := by
    intro k hk
    rw [hbegin, iterate_iterator_increment, vector_iterator_eq hinit hes hk, Nat.zero_add]
  refine ⟨?_, ?_, ?_, ?_⟩
  · intro k hk
    refine ⟨hiter k hk, ?_, ?_, ?_⟩
    · rw [hiter k hk, vector_iterator_eq hinit hes hk]
      unfold iterator_index
      rw [hd]
      simp only [show v.element_size ≠ 0 by omega, if_false, Option.some.injEq]
      exact Nat.mul_div_cancel k hes
    · intro hlt
      refine ⟨?_, ?_, ?_⟩
      · rw [hiter k hk, vector_iterator_eq hinit hes hk, hget k hlt]
        rfl
      · rw [hget k hlt]
        exact nofun
      · rw [hiter k hk, vector_iterator_eq hinit hes hk]
        unfold vector_end
        rw [vector_iterator_eq hinit hes (Nat.le_refl _)]
        unfold iterator_equals
        have := slot_le v.element_size hlt
        simp only [beq_eq_false_iff_ne, ne_eq, Option.some.injEq]
        omega
    · intro heq
      rw [hiter k hk, heq]
      rfl
  · intro i j hi hj h
    rw [hget i hi, hget j hj] at h
    simp only [Option.some.injEq] at h
    exact Nat.eq_of_mul_eq_mul_right hes h
  · intro fuel hfuel
    unfold VECTOR_FOR_EACH vector_begin
    rw [iterator_walk_from hinit hes v.size 0 fuel (by omega) hfuel, List.range_eq_range']
  · intro fuel hfuel
    unfold VECTOR_FOR_EACH vector_begin
    exact iterator_walk_short hinit hes fuel 0 (by omega)

/-- C16 at a concrete vector of three two-byte elements. -/
theorem iterator_walk_visits_all_witness :
    (∀ k, k ≤ 3 →
      Nat.iterate iterator_increment k (vector_begin ⟨3, 4, 2, some [1, 2, 3, 4, 5, 6, 0, 0]⟩) =
        vector_iterator ⟨3, 4, 2, some [1, 2, 3, 4, 5, 6, 0, 0]⟩ k ∧
      iterator_index ⟨3, 4, 2, some [1, 2, 3, 4, 5, 6, 0, 0]⟩
        (Nat.iterate iterator_increment k (vector_begin ⟨3, 4, 2, some [1, 2, 3, 4, 5, 6, 0, 0]⟩)) = some k ∧
      (k < 3 →
        iterator_get (Nat.iterate iterator_increment k (vector_begin ⟨3, 4, 2, some [1, 2, 3, 4, 5, 6, 0, 0]⟩)) =
          vector_get ⟨3, 4, 2, some [1, 2, 3, 4, 5, 6, 0, 0]⟩ k ∧
        vector_get ⟨3, 4, 2, some [1, 2, 3, 4, 5, 6, 0, 0]⟩ k ≠ none ∧
        iterator_equals (Nat.iterate iterator_increment k (vector_begin ⟨3, 4, 2, some [1, 2, 3, 4, 5, 6, 0, 0]⟩))
          (vector_end ⟨3, 4, 2, some [1, 2, 3, 4, 5, 6, 0, 0]⟩) = false) ∧
      (k = 3 →
        Nat.iterate iterator_increment k (vector_begin ⟨3, 4, 2, some [1, 2, 3, 4, 5, 6, 0, 0]⟩) = vector_end ⟨3, 4, 2, some [1, 2, 3, 4, 5, 6, 0, 0]⟩)) ∧
    (∀ i j, i < 3 → j < 3 → vector_get ⟨3, 4, 2, some [1, 2, 3, 4, 5, 6, 0, 0]⟩ i = vector_get ⟨3, 4, 2, some [1, 2, 3, 4, 5, 6, 0, 0]⟩ j → i = j) ∧
    (∀ fuel, 3 ≤ fuel →
      VECTOR_FOR_EACH fuel ⟨3, 4, 2, some [1, 2, 3, 4, 5, 6, 0, 0]⟩ = some ((List.range 3).map (vector_get ⟨3, 4, 2, some [1, 2, 3, 4, 5, 6, 0, 0]⟩))) ∧
    (∀ fuel, fuel < 3 → VECTOR_FOR_EACH fuel ⟨3, 4, 2, some [1, 2, 3, 4, 5, 6, 0, 0]⟩ = none) :=
  iterator_walk_visits_all ⟨3, 4, 2, some [1, 2, 3, 4, 5, 6, 0, 0]⟩ (by decide) (by decide)

/-- C17. For an initialized vector with the container invariant and an index below
`size`, in the default build with allocation succeeding, `vector_erase` returns normally,
with `SUCCESS` when `element_size > 0`, and after a successful erase: if the new size
equals `capacity / 4` then the capacity is
`max(VECTOR_MINIMUM_CAPACITY, new size * VECTOR_GROWTH_FACTOR)`, otherwise it is
unchanged; in every case, also when the call is rejected, the capacity does not increase
and is not below `VECTOR_MINIMUM_CAPACITY`.  The header constants are any with a growth factor between 1
and 4 and a minimum capacity of at least 1. -/
theorem vector_erase_capacity (cfg : Config) (heap : Allocator) (v : Vector) (index : Nat)
    (hns : cfg.VECTOR_NO_SHRINK = false)
    (hMIN : 1 ≤ cfg.VECTOR_MINIMUM_CAPACITY)
    (hG1 : 1 ≤ cfg.VECTOR_GROWTH_FACTOR) (hG4 : cfg.VECTOR_GROWTH_FACTOR ≤ 4)
    (hinit : Initialized v) (hinv : Invariant cfg v) (hidx : index < v.size)
    (halloc : ∀ n, heap.malloc n ≠ none) :
    ∃ rc v1, vector_erase cfg heap v index = some (rc, v1) ∧
      (0 < v.element_size → rc = VECTOR_SUCCESS) ∧
      (rc = VECTOR_SUCCESS →
        v1.size + 1 = v.size ∧
        (v1.size = v.capacity / 4 →
          v1.capacity =
            max cfg.VECTOR_MINIMUM_CAPACITY (v1.size * cfg.VECTOR_GROWTH_FACTOR)) ∧
        (v1.size ≠ v.capacity / 4 → v1.capacity = v.capacity)) ∧
      v1.capacity ≤ v.capacity ∧ cfg.VECTOR_MINIMUM_CAPACITY ≤ v1.capacity := by
  rcases Nat.eq_zero_or_pos v.element_size with h0 | hes
  · refine ⟨VECTOR_ERROR, v, ?_, fun h => absurd h0 (by omega), fun h => absurd h (by decide),
      Nat.le_refl _, hinv.2⟩
    unfold vector_erase
    rw [if_pos h0]
  · have hle4 : v.capacity / 4 * cfg.VECTOR_GROWTH_FACTOR ≤ v.capacity := by
      have h1 : v.capacity / 4 * cfg.VECTOR_GROWTH_FACTOR ≤ v.capacity / 4 * 4 :=
        Nat.mul_le_mul_left _ hG4
      have h2 : v.capacity / 4 * 4 ≤ v.capacity := Nat.div_mul_le_self _ _
      omega
    have hcb := hinit.2.1
    have hc := hinit.2.2.1
    have hfit : v.size - 1 = v.capacity / 4 →
        (v.size - 1) * cfg.VECTOR_GROWTH_FACTOR < SIZE_MOD ∧
        (v.size - 1) * cfg.VECTOR_GROWTH_FACTOR * v.element_size < SIZE_MOD := by
      intro h
      rw [h]
      have := Nat.mul_le_mul_right v.element_size hle4
      omega
    obtain ⟨v1, h1, -, hs, -, hcap, -, -⟩ :=
      vector_erase_core cfg heap v index hns hG1 hinit hes hidx halloc hfit
    have hmin := hinv.2
    by_cases hsh : v.size - 1 = v.capacity / 4
    · rw [if_pos hsh] at hcap
      unfold shrunk_capacity at hcap
      rw [reallocated_capacity_eq_max cfg _ hmin, hsh] at hcap
      refine ⟨VECTOR_SUCCESS, v1, h1, fun _ => rfl, fun _ => ?_, ?_, ?_⟩
      · rw [hs, hsh, hcap]
        exact ⟨by omega, fun _ => by omega, fun h => absurd rfl h⟩
      · rw [hcap]
        omega
      · rw [hcap]
        omega
    · rw [if_neg hsh] at hcap
      refine ⟨VECTOR_SUCCESS, v1, h1, fun _ => rfl, fun _ => ?_, ?_, ?_⟩
      · rw [hs, hcap]
        exact ⟨by omega, fun h => absurd h hsh, fun _ => rfl⟩
      · rw [hcap]
      · rw [hcap]
        exact hmin

/-- C17 at a concrete vector whose erase meets the shrink test: two one-byte elements in
a block of capacity 4. -/
theorem vector_erase_capacity_witness :
    ∃ rc v1, vector_erase specConfig zeroAllocator ⟨2, 4, 1, some [10, 20, 0, 0]⟩ 1 =
        some (rc, v1) ∧
      (0 < 1 → rc = VECTOR_SUCCESS) ∧
      (rc = VECTOR_SUCCESS →
        v1.size + 1 = 2 ∧
        (v1.size = 4 / 4 →
          v1.capacity =
            max specConfig.VECTOR_MINIMUM_CAPACITY
              (v1.size * specConfig.VECTOR_GROWTH_FACTOR)) ∧
        (v1.size ≠ 4 / 4 → v1.capacity = 4)) ∧
      v1.capacity ≤ 4 ∧ specConfig.VECTOR_MINIMUM_CAPACITY ≤ v1.capacity :=
  vector_erase_capacity specConfig zeroAllocator ⟨2, 4, 1, some [10, 20, 0, 0]⟩ 1
    rfl (by decide) (by decide) (by decide) (by decide) (by decide) (by decide)
    (by intro n h; cases h)

/-- C18 fails on the code: `vector_pop_back` has no runtime guard for an empty vector,
so with one-byte elements it decrements `size` from 0 to `2 ^ 64 - 1` and returns
`SUCCESS`, while `vector_erase` on the same vector returns `ERROR`. -/
theorem vector_pop_back_underflows_on_empty :
    Initialized ⟨0, 2, 1, some [0, 0]⟩ ∧
    vector_pop_back specConfig zeroAllocator ⟨0, 2, 1, some [0, 0]⟩ =
      some (VECTOR_SUCCESS, ⟨2 ^ 64 - 1, 2, 1, some [0, 0]⟩) ∧
    vector_erase specConfig zeroAllocator ⟨0, 2, 1, some [0, 0]⟩ 0 =
      some (VECTOR_ERROR, ⟨0, 2, 1, some [0, 0]⟩) := by
  decide

/-- C19 fails on the code: with `VECTOR_NO_SHRINK` defined the decrement of `size` is
compiled out together with the shrink test, so `vector_erase` shifts the elements down,
returns `SUCCESS` and leaves `size` at 2; `vector_pop_back` in the same build does
decrement. -/
theorem vector_erase_no_shrink_keeps_size :
    noShrinkConfig.VECTOR_NO_SHRINK = true ∧
    vector_erase noShrinkConfig zeroAllocator ⟨2, 2, 1, some [10, 20]⟩ 0 =
      some (VECTOR_SUCCESS, ⟨2, 2, 1, some [20, 20]⟩) ∧
    vector_pop_back noShrinkConfig zeroAllocator ⟨2, 2, 1, some [10, 20]⟩ =
      some (VECTOR_SUCCESS, ⟨1, 2, 1, some [10, 20]⟩) := by
  decide

/-- C20 fails on the code: the two removal paths do not take the same shrink decision.
`vector_pop_back` asks `_vector_should_shrink`, which tests
`size == capacity * VECTOR_SHRINK_THRESHOLD`, while `vector_erase` tests
`size == capacity / 4` with the constant written out.  With the threshold 1/4 written in
the header as the integer expression `(1 / 4)`, on a vector of two one-byte elements in
a block of capacity 5 (initialized, non-empty, within the container invariant, default
build, allocation succeeding) `capacity * VECTOR_SHRINK_THRESHOLD` is 0 and
`capacity / 4` is 1: `vector_pop_back` returns `SUCCESS` and keeps the capacity 5,
`vector_erase` of the last index returns `SUCCESS` and shrinks to capacity 2.  The size
and the remaining element are the same on both paths, the capacity and the block are
not. -/
theorem vector_pop_back_and_erase_shrink_differently :
    integerThresholdConfig.VECTOR_NO_SHRINK = false ∧
    Initialized ⟨2, 5, 1, some [1, 2, 0, 0, 0]⟩ ∧
    Invariant integerThresholdConfig ⟨2, 5, 1, some [1, 2, 0, 0, 0]⟩ ∧
    integerThresholdConfig.capacity_times_SHRINK_THRESHOLD 5 = 0 ∧
    _vector_should_shrink integerThresholdConfig ⟨1, 5, 1, some [1, 2, 0, 0, 0]⟩ = false ∧
    (1 : Nat) = 5 / 4 ∧
    vector_pop_back integerThresholdConfig zeroAllocator ⟨2, 5, 1, some [1, 2, 0, 0, 0]⟩ =
      some (VECTOR_SUCCESS, ⟨1, 5, 1, some [1, 2, 0, 0, 0]⟩) ∧
    vector_erase integerThresholdConfig zeroAllocator ⟨2, 5, 1, some [1, 2, 0, 0, 0]⟩ 1 =
      some (VECTOR_SUCCESS, ⟨1, 2, 1, some [1, 0]⟩) ∧
    VECTOR_GET_AS ⟨1, 5, 1, some [1, 2, 0, 0, 0]⟩ 0 = VECTOR_GET_AS ⟨1, 2, 1, some [1, 0]⟩ 0 := by
  decide

/-- Where the two shrink tests agree, the two removal paths agree. In the default build,
for an initialized non-empty vector with `element_size > 0`, when allocation succeeds
and the shrink target is representable in `size_t`, and when the test
`size == capacity * VECTOR_SHRINK_THRESHOLD` has the outcome of the test
`size == capacity / 4` at the size after the removal, `vector_pop_back` and
`vector_erase(size - 1)` return `SUCCESS` with the same resulting vector: the same size,
one less than before, the same elements and the same capacity.  The growth factor of
the header is any value of at least 1. -/
theorem vector_pop_back_same_as_erase_last (cfg : Config) (heap : Allocator) (v : Vector)
    (hns : cfg.VECTOR_NO_SHRINK = false)
    (hT : v.size - 1 = cfg.capacity_times_SHRINK_THRESHOLD v.capacity ↔
      v.size - 1 = v.capacity / 4)
    (hG : 1 ≤ cfg.VECTOR_GROWTH_FACTOR)
    (hinit : Initialized v) (hes : 0 < v.element_size) (hpos : 0 < v.size)
    (halloc : ∀ n, heap.malloc n ≠ none)
    (hfit : v.size - 1 = v.capacity / 4 →
      (v.size - 1) * cfg.VECTOR_GROWTH_FACTOR < SIZE_MOD ∧
      (v.size - 1) * cfg.VECTOR_GROWTH_FACTOR * v.element_size < SIZE_MOD) :
    ∃ v1, vector_pop_back cfg heap v = some (VECTOR_SUCCESS, v1) ∧
      vector_erase cfg heap v (v.size - 1) = some (VECTOR_SUCCESS, v1) ∧
      v1.size + 1 = v.size ∧
      (∀ j, j < v1.size → VECTOR_GET_AS v1 j = VECTOR_GET_AS v j) := by
  obtain ⟨v1, h1, -, hs, -, -, hlo, -⟩ :=
    vector_erase_core cfg heap v (v.size - 1) hns hG hinit hes (by omega) halloc hfit
  refine ⟨v1, ?_, h1, by omega, fun j hj => hlo j (by omega)⟩
  rw [vector_pop_back_eq_erase cfg heap v hns hT hinit hes hpos]
  exact h1

/-- The agreement of the two removal paths at a concrete vector of capacity 5 and a
header whose threshold expression is `capacity / 4`: the removal of the second element
meets the shrink test on both paths. -/
theorem vector_pop_back_same_as_erase_last_witness :
    ∃ v1, vector_pop_back specConfig zeroAllocator ⟨2, 5, 1, some [1, 2, 0, 0, 0]⟩ =
        some (VECTOR_SUCCESS, v1) ∧
      vector_erase specConfig zeroAllocator ⟨2, 5, 1, some [1, 2, 0, 0, 0]⟩ (2 - 1) =
        some (VECTOR_SUCCESS, v1) ∧
      v1.size + 1 = 2 ∧
      (∀ j, j < v1.size →
        VECTOR_GET_AS v1 j = VECTOR_GET_AS ⟨2, 5, 1, some [1, 2, 0, 0, 0]⟩ j) :=
  vector_pop_back_same_as_erase_last specConfig zeroAllocator ⟨2, 5, 1, some [1, 2, 0, 0, 0]⟩
    rfl (by decide) (by decide) (by decide) (by decide) (by decide) (by intro n h; cases h)
    (by intro _; decide)

end CVector
